import Mathlib

/-!
Verification of the promethius poker hand-history pipeline.

Shallow embedding of the parts of the repository the claims concern:

* `HeavyAnalysis` — stage 1 (`scrape_hh/scripts/1_build_heavy_analysis.py`):
  `tokenize`, `split_streets`, `rotate_postflop`, `parse_hand` and the
  per-batch import loop of `main`.
* `Scrape` — the ingestion driver (`scrape_hh/scrape.py`): `validate_hand`,
  `check_duplicate`, `Store.insert_batch` and the batching loop of `main`.
* `PreflopScores` — stage 2 (`scrape_hh/scripts/2_preflop_scores.py`):
  `fetch_freq_and_max` and the `best` assignment.
* `JScore` — stage 5 (`scrape_hh/scripts/5_add_j_score.py`): `clean_cards`,
  `canon`, `chen_pct`, `preflop_pct`, `treys_pct` and the base used by
  `score_row` (the risk adjustment is a transcendental factor applied after
  the base; the claims here concern the base).
* `Materialise` — stage 8 (`scrape_hh/scripts/8_materialise_dashboard.py`):
  the statement sequence of `rebuild_tables` under sqlite3's autocommit
  semantics for DDL.

Python floats are modelled as rationals, machine integers as `Int`
(Python's int is unbounded), JSON scalars as strings or typed options.
-/

namespace HeavyAnalysis

/-- Digit-run value of a list of decimal digit characters. -/
def digitsVal (s : List Char) : Nat :=
  s.foldl (fun a c => a * 10 + (c.toNat - 48)) 0

/-- `int(val_str)` on a colon-free string: an optional minus sign followed by
a nonempty run of digits; anything else raises `ValueError` (`none`). -/
def intOfString : List Char → Option Int
  | [] => none
  | '-' :: rest =>
      if rest ≠ [] ∧ rest.all Char.isDigit then some (-(digitsVal rest : Int)) else none
  | s =>
      if s.all Char.isDigit then some (digitsVal s : Int) else none

/-- `safe_parse_int(value, default)` of 1_build_heavy_analysis.py: `None`
falls to the default, colons are stripped, a failed `int()` falls to the
default. -/
def safe_parse_int (value : Option String) (default : Int) : Int :=
  match value with
  | none => default
  | some v =>
      match intOfString (v.toList.filter (fun c => c ≠ ':')) with
      | some n => n
      | none => default

/-- Python `str.lower()` on ASCII text. -/
def lowerStr (s : String) : String := String.mk (s.toList.map Char.toLower)

/-- `safe_parse_bool` (defined inside `parse_hand`): colon-stripped digit
strings parse as `int`, otherwise 1 exactly for the strings "true"/"1"
(lower-cased), else 0. -/
def safe_parse_bool (value : Option String) : Int :=
  match value with
  | none => 0
  | some v =>
      let stripped := v.toList.filter (fun c => c ≠ ':')
      if stripped ≠ [] ∧ stripped.all Char.isDigit then (digitsVal stripped : Int)
      else if lowerStr v = "true" ∨ lowerStr v = "1" then 1 else 0

/-- `NORMALIZE_CUR` of 1_build_heavy_analysis.py line 30: hardcoded `False`
("Normalisering av belopp avstängd"), the config file is not consulted. -/
def NORMALIZE_CUR : Bool := false

/-- `normalize_amount(amount, chip_value)`: "Returnerar beloppet oförändrat
(normalisering avstängd)" — the amount is returned unchanged. -/
def normalize_amount {A : Type} (amount : A) (chipValue : Rat) : A := amount

/-- The maximal leading digit run of a string and the rest
(`while j < len(s) and s[j].isdigit()`). -/
def takeDigits : List Char → List Char × List Char
  | [] => ([], [])
  | c :: cs =>
      if c.isDigit then
        let p := takeDigits cs
        (c :: p.1, p.2)
      else ([], c :: cs)

theorem takeDigits_snd_length (cs : List Char) : (takeDigits cs).2.length ≤ cs.length := by
  induction cs with
  | nil => simp [takeDigits]
  | cons c cs ih =>
      by_cases h : c.isDigit <;> simp [takeDigits, h] <;> omega

/-- The loop body of `tokenize`, structurally recursive on a fuel counter so
that the kernel can evaluate it; every iteration consumes at least one
character, so `s.length` fuel always suffices (`takeDigits_snd_length`). -/
def tokenizeFuel : Nat → List Char → Option (List (List Char))
  | _, [] => some []
  | 0, _ :: _ => none
  | fuel + 1, c :: cs =>
      if c = 'x' ∨ c = 'f' ∨ c = 'c' then
        (tokenizeFuel fuel cs).map (fun out => [c] :: out)
      else if c = 'r' then
        let p := takeDigits cs
        (tokenizeFuel fuel p.2).map (fun out => (c :: p.1) :: out)
      else none

/-- `tokenize(s)` of 1_build_heavy_analysis.py: `x`/`f`/`c` are single-char
tokens, `r` swallows the following digit run, any other character raises
`ValueError` (`none`). -/
def tokenize (s : List Char) : Option (List (List Char)) := tokenizeFuel s.length s

/-- Leftmost match of the regex `\[[^\]]+\]`: `some (before, inside, after)`
splits the input as `before ++ [ ++ inside ++ ] ++ after` with `inside`
nonempty and free of `]`. -/
def bracketSplit : List Char → Option (List Char × List Char × List Char)
  | [] => none
  | c :: cs =>
      if c = '[' then
        let inside := cs.takeWhile (fun d => d ≠ ']')
        let rest := cs.drop inside.length
        match rest with
        | ']' :: after =>
            if inside = [] then (bracketSplit cs).map (fun r => (c :: r.1, r.2.1, r.2.2))
            else some ([], inside, after)
        | _ => (bracketSplit cs).map (fun r => (c :: r.1, r.2.1, r.2.2))
      else (bracketSplit cs).map (fun r => (c :: r.1, r.2.1, r.2.2))

theorem bracketSplit_after_length :
    ∀ (s before inside after : List Char),
      bracketSplit s = some (before, inside, after) → after.length < s.length := by
  intro s
  induction s with
  | nil => intro b i a h; simp [bracketSplit] at h
  | cons c cs ih =>
      intro b i a h
      have hrec : ∀ g : List Char × List Char × List Char → List Char × List Char × List Char,
          (∀ r : List Char × List Char × List Char, (g r).2.2 = r.2.2) →
          (bracketSplit cs).map g = some (b, i, a) → a.length < (c :: cs).length := by
        intro g hg hmap
        rw [Option.map_eq_some'] at hmap
        obtain ⟨⟨b', i', a'⟩, hbs, hf⟩ := hmap
        have ha : a' = a := by
          have := congrArg (fun r : List Char × List Char × List Char => r.2.2) hf
          simpa [hg ⟨b', i', a'⟩] using this
        have := ih b' i' a' hbs
        subst ha
        simp only [List.length_cons]
        omega
      simp only [bracketSplit] at h
      split at h
      · -- c = '['
        split at h
        · -- the drop starts with ']' : a match unless inside is empty
          split at h
          · exact hrec (fun r => (c :: r.1, r.2.1, r.2.2)) (fun r => rfl) h
          · rename_i after heq hne
            have h' : (([] : List Char), cs.takeWhile (fun d => d ≠ ']'), after) = (b, i, a) :=
              Option.some.inj h
            have ha : after = a := congrArg (fun r : List Char × List Char × List Char => r.2.2) h'
            have hlen := congrArg List.length heq
            rw [List.length_drop] at hlen
            have htw : (cs.takeWhile (fun d => d ≠ ']')).length ≤ cs.length :=
              (List.takeWhile_prefix _).length_le
            subst ha
            simp only [List.length_cons] at hlen ⊢
            omega
        · exact hrec (fun r => (c :: r.1, r.2.1, r.2.2)) (fun r => rfl) h
      · exact hrec (fun r => (c :: r.1, r.2.1, r.2.2)) (fun r => rfl) h

/-- The loop of `reSplit`, structurally recursive on a fuel counter so that
the kernel can evaluate it; each match strictly shortens the remainder
(`bracketSplit_after_length`), so `s.length` fuel always suffices. -/
def reSplitFuel : Nat → List Char → List (List Char)
  | 0, s => [s]
  | fuel + 1, s =>
      match bracketSplit s with
      | none => [s]
      | some (before, inside, after) =>
          before :: ('[' :: (inside ++ [']'])) :: reSplitFuel fuel after

/-- `re.split(r"(\[[^\]]+\])", s)` restricted to what the caller observes:
the alternating non-matching text and matched bracket segments, in order.
(The matched segments keep their brackets, as `re.split` with a capturing
group returns them.) -/
def reSplit (s : List Char) : List (List Char) := reSplitFuel s.length s

/-- The street-name successor map `{"preflop":"flop","flop":"turn","turn":"river"}.get(name,"river")`. -/
def nextStreet (name : String) : String :=
  if name = "preflop" then "flop"
  else if name = "flop" then "turn"
  else if name = "turn" then "river"
  else "river"

/-- `part.strip("[]")`: removes every leading and trailing `[` or `]`. -/
def stripBrackets (p : List Char) : List Char :=
  ((p.dropWhile (fun c => c = '[' ∨ c = ']')).reverse.dropWhile
    (fun c => c = '[' ∨ c = ']')).reverse

/-- One element of the list `split_streets` returns: street name, tokens of
the street, board text revealed at the start of the street. -/
structure StreetPart where
  street : String
  toks : List (List Char)
  board : List Char
deriving DecidableEq, Repr

/-- The accumulator loop of `split_streets`: a part starting with `[`
flushes the accumulated action text as a street and opens the next one,
other parts extend the accumulated text. Tokenization failure propagates
(`ValueError`). -/
def foldParts : List (List Char) → String → List Char → List Char → Option (List StreetPart)
  | [], name, cur, cards =>
      match tokenize cur with
      | none => none
      | some t => some [⟨name, t, cards⟩]
  | p :: ps, name, cur, cards =>
      if p.head? = some '[' then
        match tokenize cur with
        | none => none
        | some t =>
            match foldParts ps (nextStreet name) [] (stripBrackets p) with
            | none => none
            | some rest => some (⟨name, t, cards⟩ :: rest)
      else foldParts ps name (cur ++ p) cards

/-- `split_streets(s)` of 1_build_heavy_analysis.py: split on bracketed
boards, tokenize each street's text, and keep the parts that have tokens
or a board. -/
def split_streets (s : List Char) : Option (List StreetPart) :=
  (foldParts (reSplit s) "preflop" [] []).map
    (List.filter (fun p => !p.toks.isEmpty || !p.board.isEmpty))

/-- `rotate(-i)` of a deque: the list rotated left by the index of `x`. -/
def rotateTo (l : List String) (x : String) : List String :=
  l.drop (l.indexOf x) ++ l.take (l.indexOf x)

/-- `rotate_postflop(active)`: start postflop action from SB, else BB, else
leave the order unchanged. -/
def rotate_postflop (active : List String) : List String :=
  if "SB" ∈ active then rotateTo active "SB"
  else if "BB" ∈ active then rotateTo active "BB"
  else active

/-- `SEAT_ORDER` of 1_build_heavy_analysis.py. -/
def SEAT_ORDER : List String := ["UTG", "UTG1", "UTG2", "LJ", "HJ", "CO", "BTN", "SB", "BB"]

/-- One value of the hand JSON's `positions` map: `stub`, `name`, `stack`,
`hole_cards`, `money_won`. The stack is kept as the raw JSON scalar
(stringified), as `safe_parse_int` receives it; `money_won` is an optional
amount. -/
structure PosInfo where
  stub : String
  name : Option String
  stack : String
  hole_cards : List String
  money_won : Option Int
deriving DecidableEq, Repr

/-- A value of the `partial_scores` JSON object: a bare float, or an object
whose `action_score` / `decision_difficulty` fields may be missing. -/
inductive ScoreVal where
  | num (x : Rat)
  | obj (action_score : Option Rat) (decision_difficulty : Option Rat)
deriving DecidableEq, Repr

/-- The fields of the raw hand JSON `parse_hand` reads. `positions` is the
JSON object as an association list in key order; `partial_scores` likewise
(`[]` models both a missing key and an empty object — both falsy). -/
structure Hand where
  stub : String
  positions : List (String × PosInfo)
  situation_string : List Char
  big_blind_amount : Option String
  small_blind_amount : Option String
  ante_amount : Option String
  is_mtt : Option String
  is_cash : Option String
  pot_type : Option String
  chip_value_in_displayed_currency : Option Rat
  partial_scores : List (String × ScoreVal)
deriving DecidableEq, Repr

/-- `pos2info[p]` (a Python dict lookup; keys of a JSON object are unique). -/
def posLookup (ps : List (String × PosInfo)) (p : String) : Option PosInfo :=
  (ps.find? (fun q => q.1 = p)).map (fun q => q.2)

/-- `pos2name`: `i.get("name") or i["stub"]` — a missing or empty name falls
back to the player's stub. -/
def pos2name (i : PosInfo) : String :=
  match i.name with
  | some n => if n = "" then i.stub else n
  | none => i.stub

/-- One row of the `actions` table as `parse_hand` emits it (the tuple
appended to `rows_a`; the two score fields it leaves as `None` are
omitted). -/
structure ActionRow where
  hand_id : String
  action_order : Nat
  street : String
  street_index : Nat
  position : String
  player_id : String
  nickname : String
  action : Char
  amount_to : Int
  stack_before : Int
  stack_after : Int
  invested_this_action : Int
  pot_before : Int
  pot_after : Int
  players_left : Nat
  is_allin : Bool
  state_prefix : List Char
  board_cards : List Char
  holecards : String
deriving DecidableEq, Repr

/-- One row of the `streets` table. -/
structure StreetRow where
  hand_id : String
  street : String
  board : List Char
deriving DecidableEq, Repr

/-- One row of the `players` table. -/
structure PlayerRow where
  hand_id : String
  position : String
  nickname : String
  stack0 : Int
  holecards : String
  money_won : Int
deriving DecidableEq, Repr

/-- The `hand_info` tuple. -/
structure HandInfoRow where
  hand_id : String
  hand_date : Option String
  seq : Option Int
  is_mtt : Int
  is_cash : Int
  big_blind : Int
  small_blind : Int
  ante : Int
  players_cnt : Nat
  pot_type : Option String
deriving DecidableEq, Repr

/-- The mutable state of `parse_hand`'s token loop. -/
structure LoopState where
  active : List String
  order : List String
  invested : String → Int
  pot : Int
  curMax : Int
  stateStr : List Char
  idx : Nat
  boardSeen : List Char

/-- The per-hand constants of the loop. -/
structure Ctx where
  stub : String
  positions : List (String × PosInfo)
  stack0 : String → Int
  chipValue : Rat

/-- One iteration of `for tk in toks` in `parse_hand`: the acting position is
the head of the order (an empty order is Python's `IndexError`, rejecting
the hand), the pending `[board]` text is appended to the state, the amounts
are bookkept and one `actions` row is emitted. Returns the new state, the
remaining `board_to_add` (always consumed) and the row. -/
def stepToken (ctx : Ctx) (street : String) (stIdx : Nat) (st : LoopState)
    (boardToAdd : List Char) (tk : List Char) :
    Option (LoopState × List Char × ActionRow) :=
  match st.order with
  | [] => none
  | pos :: restOrder =>
      match posLookup ctx.positions pos with
      | none => none
      | some pinfo =>
          let stateNow := if boardToAdd ≠ [] then st.stateStr ++ boardToAdd else st.stateStr
          let stateNext := stateNow ++ tk
          let act := tk.headD ' '
          let amt_to : Int :=
            if act = 'r' then
              normalize_amount
                (safe_parse_int (some (String.mk (tk.drop 1))) st.curMax) ctx.chipValue
            else 0
          let stack_b := ctx.stack0 pos - st.invested pos
          let pot_b := st.pot
          let put : Int :=
            if act = 'r' then amt_to - st.invested pos
            else if act = 'c' then st.curMax - st.invested pos
            else 0
          let curMax' := if act = 'r' then amt_to else st.curMax
          let invested' : String → Int :=
            fun q => if q = pos then st.invested pos + put else st.invested q
          let pot' := st.pot + put
          let stack_a := stack_b - put
          let active' := if act = 'f' then st.active.erase pos else st.active
          let order' := if act = 'f' then restOrder else restOrder ++ [pos]
          let row : ActionRow :=
            { hand_id := ctx.stub
              action_order := st.idx
              street := street
              street_index := stIdx
              position := pos
              player_id := pinfo.stub
              nickname := pos2name pinfo
              action := act
              amount_to := amt_to
              stack_before := stack_b
              stack_after := stack_a
              invested_this_action := put
              pot_before := pot_b
              pot_after := pot'
              players_left := active'.length
              is_allin := stack_a = 0
              state_prefix := stateNow
              board_cards := st.boardSeen
              holecards := String.intercalate "," pinfo.hole_cards }
          some
            ({ active := active', order := order', invested := invested', pot := pot',
               curMax := curMax', stateStr := stateNext, idx := st.idx + 1,
               boardSeen := st.boardSeen },
             ([] : List Char), row)

/-- The full `for tk in toks` loop of one street. -/
def runTokens (ctx : Ctx) (street : String) (stIdx : Nat) :
    List (List Char) → LoopState → List Char → Option (LoopState × List ActionRow)
  | [], st, _ => some (st, [])
  | tk :: tks, st, boardToAdd =>
      match stepToken ctx street stIdx st boardToAdd tk with
      | none => none
      | some (st', b', row) =>
          match runTokens ctx street stIdx tks st' b' with
          | none => none
          | some (st'', rows) => some (st'', row :: rows)

/-- The loop state at the start of a street (lines 188-192 of the source):
the seen board is extended and postflop the order is rebuilt from the
active seats. -/
def streetStart (part : StreetPart) (st : LoopState) : LoopState :=
  { st with
    boardSeen := if part.board ≠ [] then st.boardSeen ++ part.board else st.boardSeen,
    order := if part.street ≠ "preflop" then rotate_postflop st.active else st.order }

/-- `board_to_add = f"[{board}]" if board else ""` (line 194). -/
def streetBoardToAdd (part : StreetPart) : List Char :=
  if part.board ≠ [] then '[' :: (part.board ++ [']']) else []

/-- The end-of-street reset (lines 244-245): `cur_max = 0`, and the invested
amounts of the still-active players return to 0. -/
def streetEnd (st2 : LoopState) : LoopState :=
  { st2 with curMax := 0,
             invested := fun p => if p ∈ st2.active then 0 else st2.invested p }

/-- One iteration of the street loop of `parse_hand`: extend the seen board,
emit a `streets` row for a non-empty board, rebuild the order postflop, run
the tokens, and at the end of the street reset `cur_max` and the invested
amounts of the still-active players. -/
def runStreet (ctx : Ctx) (stIdx : Nat) (part : StreetPart) (st : LoopState) :
    Option (LoopState × List StreetRow × List ActionRow) :=
  match runTokens ctx part.street stIdx part.toks (streetStart part st)
      (streetBoardToAdd part) with
  | none => none
  | some (st2, rows) =>
      some (streetEnd st2,
            if part.board ≠ [] then [⟨ctx.stub, part.street, part.board⟩] else [],
            rows)

/-- `for st_idx, (street, toks, board) in enumerate(split_streets(...))`. -/
def runStreets (ctx : Ctx) :
    List StreetPart → Nat → LoopState → Option (LoopState × List StreetRow × List ActionRow)
  | [], _, st => some (st, [], [])
  | part :: parts, stIdx, st =>
      match runStreet ctx stIdx part st with
      | none => none
      | some (st', srows, arows) =>
          match runStreets ctx parts (stIdx + 1) st' with
          | none => none
          | some (st'', srows', arows') => some (st'', srows ++ srows', arows ++ arows')

/-- One row of the `postflop_scores` table as `parse_hand` builds it
(source lines 174-179). -/
structure ScoreRow where
  hand_id : String
  node : String
  action_score : Option Rat
  decision_difficulty : Option Rat
deriving DecidableEq, Repr

/-- Python `round` on the exact quotient: the nearest integer, ties to the
even neighbour. -/
def pyRound (q : Rat) : Int :=
  let f : Int := Int.fdiv q.num (q.den : Int)
  let r : Rat := q - (f : Rat)
  if r < 1 / 2 then f
  else if 1 / 2 < r then f + 1
  else if f % 2 = 0 then f else f + 1

/-- The `re.sub` of source lines 168-170: a left-to-right non-overlapping
scan that replaces each match of `r` followed by digits with `r` and
`int(round(amount / chip_value))`; structurally recursive on a fuel counter
(each step consumes at least one character, so `length` fuel suffices). -/
def reSubRaises (cv : Rat) : Nat → List Char → List Char
  | _, [] => []
  | 0, l => l
  | fuel + 1, c :: cs =>
      if c = 'r' then
        match takeDigits cs with
        | ([], _) => c :: reSubRaises cv fuel cs
        | (ds, rest) =>
            'r' :: ((pyRound ((digitsVal ds : Rat) / cv)).repr.toList ++
              reSubRaises cv fuel rest)
      else c :: reSubRaises cv fuel cs

/-- Lines 164-172: when the chip value is truthy (nonzero) and ≠ 1 — a test
independent of `NORMALIZE_CUR` — every raise amount inside the node key is
divided by it and rounded; otherwise the key is kept as is. -/
def normalizeScoreKey (cv : Rat) (k : String) : String :=
  if cv ≠ 0 ∧ cv ≠ 1 then String.mk (reSubRaises cv k.toList.length k.toList)
  else k

/-- Line 158: the hand's `partial_scores`, else `extra_scores`, else the
empty dict — Python `or` takes the first truthy operand (a missing key,
`None` and an empty dict are all falsy). -/
def handPartialScores (h : Hand)
    (extra_scores : Option (List (String × ScoreVal))) : List (String × ScoreVal) :=
  if h.partial_scores ≠ [] then h.partial_scores else extra_scores.getD []

/-- The `score_rows` list of lines 161-179: one `postflop_scores` row per
`partial` entry, the node key normalized by the chip value. -/
def score_rows_of (stub : String) (cv : Rat)
    (pscores : List (String × ScoreVal)) : List ScoreRow :=
  pscores.map (fun kv =>
    { hand_id := stub
      node := normalizeScoreKey cv kv.1
      action_score := match kv.2 with | .num x => some x | .obj a _ => a
      decision_difficulty := match kv.2 with | .num _ => Option.none | .obj _ d => d })

/-- The rows `parse_hand` returns (`rows_s, rows_a, rows_p, hand_info,
score_rows`). -/
structure ParsedHand where
  streets : List StreetRow
  actions : List ActionRow
  players : List PlayerRow
  info : HandInfoRow
  score_rows : List ScoreRow
deriving DecidableEq, Repr

/-- The chip-value defaulting of `parse_hand` (source lines 117-123): take
the parameter, else the hand's field with `or 1.0`, and turn a remaining
0 into 1. -/
def handChipValue (h : Hand) (chip_value : Option Rat) : Rat :=
  let cv0 : Rat :=
    match chip_value with
    | some c => c
    | none =>
        match h.chip_value_in_displayed_currency with
        | some c => if c = 0 then 1 else c
        | none => 1
  if cv0 = 0 then 1 else cv0

/-- `seats = [p for p in SEAT_ORDER if p in pos2info]`. -/
def handSeats (h : Hand) : List String :=
  SEAT_ORDER.filter (fun p => (posLookup h.positions p).isSome)

/-- The `stack0` map: each position's stack parsed with `safe_parse_int`
(errors fall to 0) and passed through `normalize_amount`. -/
def handStack0 (h : Hand) (cv : Rat) : String → Int := fun p =>
  match posLookup h.positions p with
  | some i => normalize_amount (safe_parse_int (some i.stack) 0) cv
  | none => 0

/-- The per-hand constants of the token loop. -/
def handCtx (h : Hand) (cv : Rat) : Ctx :=
  { stub := h.stub, positions := h.positions, stack0 := handStack0 h cv, chipValue := cv }

/-- The loop state before the first street (source lines 125-156): everyone
active in seat order, blinds and antes posted into `invested` and the pot,
`cur_max` at the big blind. -/
def initState (h : Hand) (cv : Rat) : LoopState :=
  let bb := normalize_amount (safe_parse_int h.big_blind_amount 0) cv
  let sb := normalize_amount (safe_parse_int h.small_blind_amount 0) cv
  let ante := normalize_amount (safe_parse_int h.ante_amount 0) cv
  let seats := handSeats h
  let posKeys := h.positions.map (fun q => q.1)
  { active := seats
    order := seats
    invested := fun p =>
      if p ∈ posKeys then
        (if p = "SB" then sb else 0) + (if p = "BB" then bb else 0) + ante
      else 0
    pot := sb + bb + ante * (seats.length : Int)
    curMax := bb
    stateStr := []
    idx := 0
    boardSeen := [] }

/-- `parse_hand(h, extra_scores, hand_date, seq, chip_value)` of
1_build_heavy_analysis.py. `none` models the exceptions Python raises on a
malformed hand (tokenizer `ValueError`, `IndexError` on an exhausted order,
a position missing from `positions`). -/
def parse_hand (h : Hand) (extra_scores : Option (List (String × ScoreVal)))
    (hand_date : Option String) (seq : Option Int)
    (chip_value : Option Rat) : Option ParsedHand :=
  let cv := handChipValue h chip_value
  match split_streets h.situation_string with
  | none => none
  | some parts =>
      match runStreets (handCtx h cv) parts 0 (initState h cv) with
      | none => none
      | some (_, srows, arows) =>
          some { streets := srows
                 actions := arows
                 players := h.positions.map (fun pi =>
                   { hand_id := h.stub
                     position := pi.1
                     nickname := pos2name pi.2
                     stack0 := handStack0 h cv pi.1
                     holecards := String.intercalate "," pi.2.hole_cards
                     money_won := normalize_amount (pi.2.money_won.getD 0) cv })
                 info :=
                   { hand_id := h.stub
                     hand_date := hand_date
                     seq := seq
                     is_mtt := safe_parse_bool h.is_mtt
                     is_cash := safe_parse_bool h.is_cash
                     big_blind := normalize_amount (safe_parse_int h.big_blind_amount 0) cv
                     small_blind := normalize_amount (safe_parse_int h.small_blind_amount 0) cv
                     ante := normalize_amount (safe_parse_int h.ante_amount 0) cv
                     players_cnt := (handSeats h).length
                     pot_type := h.pot_type }
                 score_rows := score_rows_of h.stub cv (handPartialScores h extra_scores) }

/-- A list of counts each of which is bounded by its predecessor (the first
by `n`). -/
def plChain : Nat → List Nat → Prop
  | _, [] => True
  | n, m :: ms => m ≤ n ∧ plChain m ms

/-- The last element of the list, or the default. -/
def lastD : List Nat → Nat → Nat
  | [], n => n
  | a :: l, _ => lastD l a

/-- Adjacent elements never increase. -/
def nonIncreasing : List Nat → Prop
  | [] => True
  | [_] => True
  | a :: b :: l => b ≤ a ∧ nonIncreasing (b :: l)

theorem plChain_nonIncreasing : ∀ (l : List Nat) (n : Nat), plChain n l → nonIncreasing l := by
  intro l
  induction l with
  | nil => intro n _; trivial
  | cons a l ih =>
      intro n hc
      obtain ⟨han, hal⟩ := hc
      cases l with
      | nil => trivial
      | cons b l' => exact ⟨hal.1, ih a hal⟩

theorem lastD_append (l1 l2 : List Nat) (n : Nat) :
    lastD (l1 ++ l2) n = lastD l2 (lastD l1 n) := by
  induction l1 generalizing n with
  | nil => rfl
  | cons a l ih =>
      show lastD (l ++ l2) a = lastD l2 (lastD l a)
      exact ih a

theorem plChain_append (l1 l2 : List Nat) (n : Nat) :
    plChain n l1 → plChain (lastD l1 n) l2 → plChain n (l1 ++ l2) := by
  induction l1 generalizing n with
  | nil => intro _ h2; simpa using h2
  | cons a l ih =>
      intro h1 h2
      exact ⟨h1.1, ih a h1.2 h2⟩

theorem length_erase_le (l : List String) (a : String) : (l.erase a).length ≤ l.length := by
  induction l with
  | nil => simp
  | cons b l ih =>
      by_cases hb : b = a <;> simp [List.erase_cons, hb] <;> omega

theorem rotateTo_perm (l : List String) (x : String) : (rotateTo l x).Perm l := by
  unfold rotateTo
  have h : (l.drop (l.indexOf x) ++ l.take (l.indexOf x)).Perm
      (l.take (l.indexOf x) ++ l.drop (l.indexOf x)) := List.perm_append_comm
  rwa [List.take_append_drop] at h

theorem rotate_postflop_perm (l : List String) : (rotate_postflop l).Perm l := by
  unfold rotate_postflop
  by_cases h1 : "SB" ∈ l
  · simp only [if_pos h1]
    exact rotateTo_perm l "SB"
  · simp only [if_neg h1]
    by_cases h2 : "BB" ∈ l
    · simp only [if_pos h2]
      exact rotateTo_perm l "BB"
    · simp only [if_neg h2]
      exact List.Perm.refl l

/-- What one token step guarantees about its emitted row and the next state. -/
theorem stepToken_spec (ctx : Ctx) (street : String) (stIdx : Nat) (st : LoopState)
    (b tk : List Char) (st' : LoopState) (b' : List Char) (row : ActionRow)
    (h : stepToken ctx street stIdx st b tk = some (st', b', row)) :
    row.stack_after = row.stack_before - row.invested_this_action ∧
    row.pot_after = row.pot_before + row.invested_this_action ∧
    row.action = tk.headD ' ' ∧
    row.players_left = st'.active.length ∧
    st'.active.length ≤ st.active.length ∧
    (st.order.Perm st.active → st'.order.Perm st'.active) ∧
    (st.order.Perm st.active → row.action ≠ 'f' → 0 < row.players_left) := by
  unfold stepToken at h
  split at h
  · exact Option.noConfusion h
  · rename_i pos restOrder hord
    split at h
    · exact Option.noConfusion h
    · rename_i pinfo hpl
      simp only [Option.some.injEq, Prod.mk.injEq] at h
      obtain ⟨hst, _hb, hrow⟩ := h
      subst hrow
      subst hst
      refine ⟨rfl, rfl, rfl, rfl, ?_, ?_, ?_⟩
      · by_cases hf : tk.headD ' ' = 'f'
        · simp only [if_pos hf]
          exact length_erase_le _ _
        · simp only [if_neg hf]
          exact le_refl _
      · intro hp
        rw [hord] at hp
        by_cases hf : tk.headD ' ' = 'f'
        · simp only [if_pos hf]
          have he : ((pos :: restOrder).erase pos).Perm (st.active.erase pos) := hp.erase pos
          rwa [List.erase_cons_head] at he
        · simp only [if_neg hf]
          exact (List.perm_append_singleton pos restOrder).trans hp
      · intro hp hf
        simp only [if_neg hf]
        rw [hord] at hp
        have hl := hp.length_eq
        simp only [List.length_cons] at hl
        omega

/-- What the token loop of one street guarantees: row invariants, a
non-increasing `players_left` chain ending at the final active count, and
the order/active permutation invariant. -/
theorem runTokens_spec (ctx : Ctx) (street : String) (stIdx : Nat) :
    ∀ (toks : List (List Char)) (st : LoopState) (b : List Char)
      (st2 : LoopState) (rows : List ActionRow),
      runTokens ctx street stIdx toks st b = some (st2, rows) →
      st.order.Perm st.active →
      (∀ r ∈ rows,
        (r.stack_after = r.stack_before - r.invested_this_action ∧
         r.pot_after = r.pot_before + r.invested_this_action) ∧
        (∃ tk ∈ toks, r.action = tk.headD ' ') ∧
        (r.players_left = 0 → r.action = 'f')) ∧
      plChain st.active.length (rows.map ActionRow.players_left) ∧
      lastD (rows.map ActionRow.players_left) st.active.length = st2.active.length ∧
      st2.order.Perm st2.active ∧ st2.active.length ≤ st.active.length := by
  intro toks
  induction toks with
  | nil =>
      intro st b st2 rows h hp
      simp only [runTokens, Option.some.injEq, Prod.mk.injEq] at h
      obtain ⟨hst, hrows⟩ := h
      subst hst
      subst hrows
      exact ⟨by simp, trivial, rfl, hp, le_refl _⟩
  | cons tk tks ih =>
      intro st b st2 rows h hp
      simp only [runTokens] at h
      split at h
      · exact Option.noConfusion h
      · rename_i st' b' row hstep
        split at h
        · exact Option.noConfusion h
        · rename_i st'' rows' hrec
          simp only [Option.some.injEq, Prod.mk.injEq] at h
          obtain ⟨hst2, hrows⟩ := h
          subst hst2
          subst hrows
          obtain ⟨hs1, hs2, hs3, hs4, hs5, hs6, hs7⟩ := stepToken_spec _ _ _ _ _ _ _ _ _ hstep
          obtain ⟨ihA, ihB, ihC, ihD, ihE⟩ := ih st' b' st'' rows' hrec (hs6 hp)
          refine ⟨?_, ?_, ?_, ihD, le_trans ihE hs5⟩
          · intro r hr
            rcases List.mem_cons.mp hr with hr | hr
            · subst hr
              refine ⟨⟨hs1, hs2⟩, ⟨tk, by simp, hs3⟩, ?_⟩
              intro h0
              by_contra hf
              have := hs7 hp hf
              omega
            · obtain ⟨p1, p2, p3⟩ := ihA r hr
              obtain ⟨tk', htk', he⟩ := p2
              exact ⟨p1, ⟨tk', by simp [htk'], he⟩, p3⟩
          · rw [List.map_cons]
            exact ⟨hs4 ▸ hs5, hs4 ▸ ihB⟩
          · rw [List.map_cons]
            simp only [lastD]
            rw [hs4]
            exact ihC

/-- The per-street guarantees of `runStreet`. -/
theorem runStreet_spec (ctx : Ctx) (stIdx : Nat) (part : StreetPart) (st st3 : LoopState)
    (srows : List StreetRow) (arows : List ActionRow)
    (h : runStreet ctx stIdx part st = some (st3, srows, arows))
    (hp : st.order.Perm st.active) :
    (∀ r ∈ arows,
      (r.stack_after = r.stack_before - r.invested_this_action ∧
       r.pot_after = r.pot_before + r.invested_this_action) ∧
      (∃ tk ∈ part.toks, r.action = tk.headD ' ') ∧
      (r.players_left = 0 → r.action = 'f')) ∧
    plChain st.active.length (arows.map ActionRow.players_left) ∧
    lastD (arows.map ActionRow.players_left) st.active.length = st3.active.length ∧
    st3.order.Perm st3.active ∧ st3.active.length ≤ st.active.length := by
  have hp1 : (streetStart part st).order.Perm (streetStart part st).active := by
    show (if part.street ≠ "preflop" then rotate_postflop st.active else st.order).Perm
      st.active
    split
    · exact rotate_postflop_perm st.active
    · exact hp
  unfold runStreet at h
  split at h
  · exact Option.noConfusion h
  · rename_i st2 rows hrun
    simp only [Option.some.injEq, Prod.mk.injEq] at h
    obtain ⟨hst3, _hsrows, harows⟩ := h
    obtain ⟨rA, rB, rC, rD, rE⟩ :=
      runTokens_spec ctx part.street stIdx part.toks _ _ _ _ hrun hp1
    subst hst3
    subst harows
    exact ⟨rA, rB, rC, rD, rE⟩

/-- The street loop's guarantees, accumulated over all streets. -/
theorem runStreets_spec (ctx : Ctx) :
    ∀ (parts : List StreetPart) (stIdx : Nat) (st stF : LoopState)
      (srows : List StreetRow) (arows : List ActionRow),
      runStreets ctx parts stIdx st = some (stF, srows, arows) →
      st.order.Perm st.active →
      (∀ r ∈ arows,
        (r.stack_after = r.stack_before - r.invested_this_action ∧
         r.pot_after = r.pot_before + r.invested_this_action) ∧
        (∃ part ∈ parts, ∃ tk ∈ part.toks, r.action = tk.headD ' ') ∧
        (r.players_left = 0 → r.action = 'f')) ∧
      plChain st.active.length (arows.map ActionRow.players_left) ∧
      lastD (arows.map ActionRow.players_left) st.active.length = stF.active.length ∧
      stF.order.Perm stF.active ∧ stF.active.length ≤ st.active.length := by
  intro parts
  induction parts with
  | nil =>
      intro stIdx st stF srows arows h hp
      simp only [runStreets, Option.some.injEq, Prod.mk.injEq] at h
      obtain ⟨hst, _hs, ha⟩ := h
      subst hst
      subst ha
      exact ⟨by simp, trivial, rfl, hp, le_refl _⟩
  | cons part parts ih =>
      intro stIdx st stF srows arows h hp
      simp only [runStreets] at h
      split at h
      · exact Option.noConfusion h
      · rename_i st' srows1 arows1 hstreet
        split at h
        · exact Option.noConfusion h
        · rename_i st'' srows2 arows2 hrest
          simp only [Option.some.injEq, Prod.mk.injEq] at h
          obtain ⟨hstF, _hs, ha⟩ := h
          subst hstF
          subst ha
          obtain ⟨sA, sB, sC, sD, sE⟩ :=
            runStreet_spec ctx stIdx part st st' srows1 arows1 hstreet hp
          obtain ⟨iA, iB, iC, iD, iE⟩ := ih (stIdx + 1) st' st'' srows2 arows2 hrest sD
          refine ⟨?_, ?_, ?_, iD, le_trans iE sE⟩
          · intro r hr
            rcases List.mem_append.mp hr with hr | hr
            · obtain ⟨p1, p2, p3⟩ := sA r hr
              exact ⟨p1, ⟨part, by simp, p2⟩, p3⟩
            · obtain ⟨p1, p2, p3⟩ := iA r hr
              obtain ⟨part2, hpart2, htk⟩ := p2
              exact ⟨p1, ⟨part2, by simp [hpart2], htk⟩, p3⟩
          · rw [List.map_append]
            exact plChain_append _ _ _ sB (sC ▸ iB)
          · rw [List.map_append, lastD_append, sC]
            exact iC

/-- Every token `tokenizeFuel` produces starts with one of `x`, `f`, `c`, `r`. -/
theorem tokenizeFuel_head :
    ∀ (fuel : Nat) (s : List Char) (toks : List (List Char)),
      tokenizeFuel fuel s = some toks →
      ∀ tk ∈ toks,
        tk.headD ' ' = 'x' ∨ tk.headD ' ' = 'f' ∨ tk.headD ' ' = 'c' ∨ tk.headD ' ' = 'r' := by
  intro fuel
  induction fuel with
  | zero =>
      intro s toks h tk htk
      cases s with
      | nil =>
          simp only [tokenizeFuel, Option.some.injEq] at h
          subst h
          simp at htk
      | cons c cs => exact Option.noConfusion h
  | succ fuel ih =>
      intro s toks h tk htk
      cases s with
      | nil =>
          simp only [tokenizeFuel, Option.some.injEq] at h
          subst h
          simp at htk
      | cons c cs =>
          simp only [tokenizeFuel] at h
          by_cases hc : c = 'x' ∨ c = 'f' ∨ c = 'c'
          · rw [if_pos hc] at h
            rw [Option.map_eq_some'] at h
            obtain ⟨out, hout, htoks⟩ := h
            subst htoks
            rcases List.mem_cons.mp htk with htk | htk
            · subst htk
              rcases hc with hc | hc | hc
              · subst hc; exact Or.inl rfl
              · subst hc; exact Or.inr (Or.inl rfl)
              · subst hc; exact Or.inr (Or.inr (Or.inl rfl))
            · exact ih cs out hout tk htk
          · rw [if_neg hc] at h
            by_cases hr : c = 'r'
            · rw [if_pos hr] at h
              rw [Option.map_eq_some'] at h
              obtain ⟨out, hout, htoks⟩ := h
              subst htoks
              rcases List.mem_cons.mp htk with htk | htk
              · subst htk
                subst hr
                exact Or.inr (Or.inr (Or.inr rfl))
              · exact ih _ out hout tk htk
            · rw [if_neg hr] at h
              exact Option.noConfusion h

/-- Every token `tokenize` produces starts with one of `x`, `f`, `c`, `r`. -/
theorem tokenize_head (s : List Char) :
    ∀ (toks : List (List Char)), tokenize s = some toks →
      ∀ tk ∈ toks,
        tk.headD ' ' = 'x' ∨ tk.headD ' ' = 'f' ∨ tk.headD ' ' = 'c' ∨ tk.headD ' ' = 'r' :=
  fun toks h => tokenizeFuel_head s.length s toks h

/-- Every street part `foldParts` builds carries a token list that some
string tokenizes to. -/
theorem foldParts_toks :
    ∀ (ps : List (List Char)) (name : String) (cur cards : List Char)
      (parts : List StreetPart), foldParts ps name cur cards = some parts →
      ∀ part ∈ parts, ∃ s0, tokenize s0 = some part.toks := by
  intro ps
  induction ps with
  | nil =>
      intro name cur cards parts h part hpart
      simp only [foldParts] at h
      split at h
      · exact Option.noConfusion h
      · rename_i t ht
        simp only [Option.some.injEq] at h
        subst h
        rcases List.mem_singleton.mp hpart with hp
        subst hp
        exact ⟨cur, ht⟩
  | cons p ps ih =>
      intro name cur cards parts h part hpart
      simp only [foldParts] at h
      split at h
      · split at h
        · exact Option.noConfusion h
        · rename_i t ht
          split at h
          · exact Option.noConfusion h
          · rename_i rest hrest
            simp only [Option.some.injEq] at h
            subst h
            rcases List.mem_cons.mp hpart with hp | hp
            · subst hp
              exact ⟨cur, ht⟩
            · exact ih _ _ _ rest hrest part hp
      · exact ih _ _ _ parts h part hpart

/-- Every part returned by `split_streets` carries a tokenizer output. -/
theorem split_streets_toks (s : List Char) (parts : List StreetPart)
    (h : split_streets s = some parts) :
    ∀ part ∈ parts, ∃ s0, tokenize s0 = some part.toks := by
  unfold split_streets at h
  rw [Option.map_eq_some'] at h
  obtain ⟨parts0, hf, hfilter⟩ := h
  intro part hpart
  subst hfilter
  exact foldParts_toks _ _ _ _ _ hf part (List.mem_of_mem_filter hpart)

/-- `stepToken` ignores the chip value: it enters only through
`normalize_amount`, which returns its argument. -/
theorem stepToken_chip_invariant (ctx1 ctx2 : Ctx) (hstub : ctx1.stub = ctx2.stub)
    (hpos : ctx1.positions = ctx2.positions) (hstack : ctx1.stack0 = ctx2.stack0)
    (street : String) (stIdx : Nat) (st : LoopState) (b tk : List Char) :
    stepToken ctx1 street stIdx st b tk = stepToken ctx2 street stIdx st b tk := by
  unfold stepToken
  simp only [normalize_amount]
  rw [hstub, hpos, hstack]

/-- `runTokens` ignores the chip value. -/
theorem runTokens_chip_invariant (ctx1 ctx2 : Ctx) (hstub : ctx1.stub = ctx2.stub)
    (hpos : ctx1.positions = ctx2.positions) (hstack : ctx1.stack0 = ctx2.stack0)
    (street : String) (stIdx : Nat) :
    ∀ (toks : List (List Char)) (st : LoopState) (b : List Char),
      runTokens ctx1 street stIdx toks st b = runTokens ctx2 street stIdx toks st b := by
  intro toks
  induction toks with
  | nil => intro st b; rfl
  | cons tk tks ih =>
      intro st b
      simp only [runTokens]
      rw [stepToken_chip_invariant ctx1 ctx2 hstub hpos hstack street stIdx st b tk]
      cases hstep : stepToken ctx2 street stIdx st b tk with
      | none => rfl
      | some v =>
          obtain ⟨st', b', row⟩ := v
          show (match runTokens ctx1 street stIdx tks st' b' with
                | none => none
                | some (st2, rows) => some (st2, row :: rows)) =
               (match runTokens ctx2 street stIdx tks st' b' with
                | none => none
                | some (st2, rows) => some (st2, row :: rows))
          rw [ih st' b']

/-- `runStreet` ignores the chip value. -/
theorem runStreet_chip_invariant (ctx1 ctx2 : Ctx) (hstub : ctx1.stub = ctx2.stub)
    (hpos : ctx1.positions = ctx2.positions) (hstack : ctx1.stack0 = ctx2.stack0)
    (stIdx : Nat) (part : StreetPart) (st : LoopState) :
    runStreet ctx1 stIdx part st = runStreet ctx2 stIdx part st := by
  unfold runStreet
  rw [runTokens_chip_invariant ctx1 ctx2 hstub hpos hstack]
  cases hrun : runTokens ctx2 part.street stIdx part.toks (streetStart part st)
      (streetBoardToAdd part) with
  | none => rfl
  | some v =>
      obtain ⟨st2, rows⟩ := v
      show some (streetEnd st2,
            (if part.board ≠ [] then
              [{ hand_id := ctx1.stub, street := part.street, board := part.board }]
             else [] : List StreetRow), rows) =
           some (streetEnd st2,
            (if part.board ≠ [] then
              [{ hand_id := ctx2.stub, street := part.street, board := part.board }]
             else [] : List StreetRow), rows)
      rw [hstub]

/-- `runStreets` ignores the chip value. -/
theorem runStreets_chip_invariant (ctx1 ctx2 : Ctx) (hstub : ctx1.stub = ctx2.stub)
    (hpos : ctx1.positions = ctx2.positions) (hstack : ctx1.stack0 = ctx2.stack0) :
    ∀ (parts : List StreetPart) (stIdx : Nat) (st : LoopState),
      runStreets ctx1 parts stIdx st = runStreets ctx2 parts stIdx st := by
  intro parts
  induction parts with
  | nil => intro stIdx st; rfl
  | cons part parts ih =>
      intro stIdx st
      simp only [runStreets]
      rw [runStreet_chip_invariant ctx1 ctx2 hstub hpos hstack stIdx part st]
      cases hstreet : runStreet ctx2 stIdx part st with
      | none => rfl
      | some v =>
          obtain ⟨st', srows1, arows1⟩ := v
          show (match runStreets ctx1 parts (stIdx + 1) st' with
                | none => none
                | some (st2, srows2, arows2) => some (st2, srows1 ++ srows2, arows1 ++ arows2)) =
               (match runStreets ctx2 parts (stIdx + 1) st' with
                | none => none
                | some (st2, srows2, arows2) => some (st2, srows1 ++ srows2, arows1 ++ arows2))
          rw [ih (stIdx + 1) st']

/-- Every component of the parse except `score_rows` ignores the chip
value: `normalize_amount` is the identity, and only the score-node keys of
lines 164-172 are rescaled. -/
theorem parse_hand_chip_invariant (h : Hand) (e : Option (List (String × ScoreVal)))
    (d : Option String) (q : Option Int) (cv1 cv2 : Option Rat) :
    (parse_hand h e d q cv1).map (fun r => (r.streets, r.actions, r.players, r.info)) =
    (parse_hand h e d q cv2).map (fun r => (r.streets, r.actions, r.players, r.info)) := by
  have hstack : handStack0 h (handChipValue h cv1) = handStack0 h (handChipValue h cv2) := rfl
  have hinit : initState h (handChipValue h cv1) = initState h (handChipValue h cv2) := rfl
  unfold parse_hand
  cases hsp : split_streets h.situation_string with
  | none => rfl
  | some parts =>
      show (match runStreets (handCtx h (handChipValue h cv1)) parts 0
              (initState h (handChipValue h cv1)) with
            | none => none
            | some (_, srows, arows) => _).map _ =
           (match runStreets (handCtx h (handChipValue h cv2)) parts 0
              (initState h (handChipValue h cv2)) with
            | none => none
            | some (_, srows, arows) => _).map _
      rw [runStreets_chip_invariant (handCtx h (handChipValue h cv1))
            (handCtx h (handChipValue h cv2)) rfl rfl hstack parts 0
            (initState h (handChipValue h cv1)), hinit]
      cases runStreets (handCtx h (handChipValue h cv2)) parts 0
          (initState h (handChipValue h cv2)) with
      | none => rfl
      | some t =>
          obtain ⟨stF, srows, arows⟩ := t
          rfl

/-- A concrete 4-handed hand: CO opens to 300, BTN raises (amount elided,
falling back to `cur_max`), blinds call; two checks on the flop. -/
def exHandS3 : Hand :=
  { stub := "H3"
    positions :=
      [("CO", { stub := "p1", name := some "alice", stack := "1000",
                hole_cards := ["Ah", "Kd"], money_won := some 0 }),
       ("BTN", { stub := "p2", name := some "bob", stack := "1000",
                 hole_cards := ["2c", "2d"], money_won := some 0 }),
       ("SB", { stub := "p3", name := some "carol", stack := "1000",
                hole_cards := ["7s", "8s"], money_won := some (-50) }),
       ("BB", { stub := "p4", name := some "dave", stack := "1000",
                hole_cards := ["Ts", "Jc"], money_won := some 450 })]
    situation_string := "r300rcc[AhKsQd]xx".toList
    big_blind_amount := some "100"
    small_blind_amount := some "50"
    ante_amount := none
    is_mtt := some "0"
    is_cash := some "1"
    pot_type := some "SRP"
    chip_value_in_displayed_currency := none
    partial_scores := [] }

/-- A heads-up hand whose situation string is `"ff"`: both seats fold, the
parser accepts the hand, and the second row's `players_left` is 0. -/
def exHandFF : Hand :=
  { stub := "HFF"
    positions :=
      [("SB", { stub := "p3", name := some "carol", stack := "1000",
                hole_cards := ["7s", "8s"], money_won := some 0 }),
       ("BB", { stub := "p4", name := some "dave", stack := "1000",
                hole_cards := ["Ts", "Jc"], money_won := some 150 })]
    situation_string := "ff".toList
    big_blind_amount := some "100"
    small_blind_amount := some "50"
    ante_amount := none
    is_mtt := some "0"
    is_cash := some "1"
    pot_type := none
    chip_value_in_displayed_currency := some 2
    partial_scores := [] }

/-- Fallback value used only to read off a concrete parse result. -/
def emptyParsed : ParsedHand :=
  { streets := [], actions := [], players := [],
    info := { hand_id := "", hand_date := none, seq := none, is_mtt := 0, is_cash := 0,
              big_blind := 0, small_blind := 0, ante := 0, players_cnt := 0,
              pot_type := none }
    score_rows := [] }

/-- Fallback value used only to read off a concrete action row. -/
def emptyActionRow : ActionRow :=
  { hand_id := "", action_order := 0, street := "", street_index := 0, position := "",
    player_id := "", nickname := "", action := ' ', amount_to := 0, stack_before := 0,
    stack_after := 0, invested_this_action := 0, pot_before := 0, pot_after := 0,
    players_left := 0, is_allin := false, state_prefix := [], board_cards := [],
    holecards := "" }

/-- The parse of `exHandS3` (it is accepted, so the default is never taken). -/
def exParsedS3 : ParsedHand := (parse_hand exHandS3 none none none none).getD emptyParsed

/-- The first action row of `exParsedS3`. -/
def exRowS3 : ActionRow := exParsedS3.actions.headD emptyActionRow

/-- C1: for every hand accepted by the Stage 1 parser and for every action
row it emits, `stack_after = stack_before − invested_this_action` and
`pot_after = pot_before + invested_this_action`. -/
theorem C1_stack_pot_conservation (h : Hand) (e : Option (List (String × ScoreVal)))
    (d : Option String) (q : Option Int)
    (cv : Option Rat) (res : ParsedHand) (hp : parse_hand h e d q cv = some res) :
    ∀ r ∈ res.actions,
      r.stack_after = r.stack_before - r.invested_this_action ∧
      r.pot_after = r.pot_before + r.invested_this_action := by
  simp only [parse_hand] at hp
  split at hp
  · exact Option.noConfusion hp
  · rename_i parts hparts
    split at hp
    · exact Option.noConfusion hp
    · rename_i stF srows arows hrun
      simp only [Option.some.injEq] at hp
      subst hp
      intro r hr
      obtain ⟨rA, _, _, _, _⟩ :=
        runStreets_spec (handCtx h (handChipValue h cv)) parts 0 _ stF srows arows hrun
          (List.Perm.refl _)
      exact (rA r hr).1

/-- C1 witness: the theorem instantiated at `exHandS3` and its first row. -/
theorem C1_stack_pot_conservation_witness :
    exRowS3.stack_after = exRowS3.stack_before - exRowS3.invested_this_action ∧
    exRowS3.pot_after = exRowS3.pot_before + exRowS3.invested_this_action :=
  C1_stack_pot_conservation exHandS3 none none none none exParsedS3 rfl exRowS3 (by decide)

/-- C6 counterexample: `exHandFF` is accepted by the parser, and its
`players_left` values are `[1, 0]` — the final row reaches zero, refuting
"no action row has players_left equal to zero". -/
theorem C6_counterexample :
    (parse_hand exHandFF none none none none).isSome = true ∧
    (parse_hand exHandFF none none none none).map
      (fun r => r.actions.map ActionRow.players_left) = some [1, 0] :=
  ⟨rfl, rfl⟩

/-- C6 (amended): `players_left` is monotonically non-increasing along
`action_order`, and a row with `players_left = 0` can only be a fold (of the
last remaining player) — zero does occur when every seat folds. -/
theorem C6_players_left_monotone (h : Hand) (e : Option (List (String × ScoreVal)))
    (d : Option String) (q : Option Int)
    (cv : Option Rat) (res : ParsedHand) (hp : parse_hand h e d q cv = some res) :
    nonIncreasing (res.actions.map ActionRow.players_left) ∧
    ∀ r ∈ res.actions, r.players_left = 0 → r.action = 'f' := by
  simp only [parse_hand] at hp
  split at hp
  · exact Option.noConfusion hp
  · rename_i parts hparts
    split at hp
    · exact Option.noConfusion hp
    · rename_i stF srows arows hrun
      simp only [Option.some.injEq] at hp
      subst hp
      obtain ⟨rA, rB, _, _, _⟩ :=
        runStreets_spec (handCtx h (handChipValue h cv)) parts 0 _ stF srows arows hrun
          (List.Perm.refl _)
      constructor
      · exact plChain_nonIncreasing _ _ rB
      · intro r hr
        exact (rA r hr).2.2

/-- C6 witness: the amended theorem at `exHandS3`. -/
theorem C6_players_left_monotone_witness :
    nonIncreasing (exParsedS3.actions.map ActionRow.players_left) ∧
    ∀ r ∈ exParsedS3.actions, r.players_left = 0 → r.action = 'f' :=
  C6_players_left_monotone exHandS3 none none none none exParsedS3 rfl

/-- C10: every action row an accepted hand emits has action `x`, `f`, `c`
or `r`; the value `b` never occurs. -/
theorem C10_action_alphabet (h : Hand) (e : Option (List (String × ScoreVal)))
    (d : Option String) (q : Option Int)
    (cv : Option Rat) (res : ParsedHand) (hp : parse_hand h e d q cv = some res) :
    ∀ r ∈ res.actions,
      (r.action = 'x' ∨ r.action = 'f' ∨ r.action = 'c' ∨ r.action = 'r') ∧
      r.action ≠ 'b' := by
  simp only [parse_hand] at hp
  split at hp
  · exact Option.noConfusion hp
  · rename_i parts hparts
    split at hp
    · exact Option.noConfusion hp
    · rename_i stF srows arows hrun
      simp only [Option.some.injEq] at hp
      subst hp
      intro r hr
      obtain ⟨rA, _, _, _, _⟩ :=
        runStreets_spec (handCtx h (handChipValue h cv)) parts 0 _ stF srows arows hrun
          (List.Perm.refl _)
      obtain ⟨_, hex, _⟩ := rA r hr
      obtain ⟨part, hpart, tk, htk, hact⟩ := hex
      obtain ⟨s0, hs0⟩ := split_streets_toks _ _ hparts part hpart
      have halpha := tokenize_head s0 _ hs0 tk htk
      rw [hact]
      refine ⟨halpha, ?_⟩
      rcases halpha with ha | ha | ha | ha <;> rw [ha] <;> decide

/-- C10 witness: the theorem at `exHandS3` and its first row. -/
theorem C10_action_alphabet_witness :
    (exRowS3.action = 'x' ∨ exRowS3.action = 'f' ∨ exRowS3.action = 'c' ∨
     exRowS3.action = 'r') ∧
    exRowS3.action ≠ 'b' :=
  C10_action_alphabet exHandS3 none none none none exParsedS3 rfl exRowS3 (by decide)

/-- `exHandFF` with one `partial_scores` entry whose node key holds the
raise amount 300. -/
def exHandPS : Hand :=
  { exHandFF with
    stub := "HPS"
    partial_scores := [("r300x", ScoreVal.num (7 / 10))] }

/-- C8 counterexample: with chip value 2 and a raw big blind of 100 the
stored big blind is 100, not 100/2 = 50 — `NORMALIZE_CUR` is hardcoded off
and `normalize_amount` never divides; yet with the setting off the raise
amount in a partial-score node key IS divided by the chip value
("r300x" is stored as "r150x"), so amounts are not all stored unchanged
either. -/
theorem C8_counterexample :
    NORMALIZE_CUR = false ∧
    normalize_amount (100 : Int) (2 : Rat) = 100 ∧
    (parse_hand exHandFF none none none (some 2)).map
      (fun r => r.info.big_blind) = some 100 ∧
    (parse_hand exHandPS none none none (some 2)).map
      (fun r => r.score_rows.map ScoreRow.node) = some ["r150x"] :=
  ⟨rfl, rfl, rfl, by with_unfolding_all rfl⟩

/-- C8 (amended): the `NORMALIZE_CUR` switch is dead — it is hardcoded
`False` and `normalize_amount` is the identity — so every component of the
parse except `score_rows` is invariant under the chip value, and the stored
blinds/stacks/money equal the raw parsed amounts. The one normalization
that does happen is independent of `NORMALIZE_CUR`: raise amounts inside
the partial-score node keys are divided by the chip value (rounded)
whenever it is nonzero and ≠ 1. -/
theorem C8_normalization_disabled :
    NORMALIZE_CUR = false ∧
    (∀ (a : Int) (c : Rat), normalize_amount a c = a) ∧
    (∀ (h : Hand) (e : Option (List (String × ScoreVal))) (d : Option String)
        (q : Option Int) (cv1 cv2 : Option Rat),
      (parse_hand h e d q cv1).map (fun r => (r.streets, r.actions, r.players, r.info)) =
      (parse_hand h e d q cv2).map (fun r => (r.streets, r.actions, r.players, r.info))) ∧
    (∀ (h : Hand) (e : Option (List (String × ScoreVal))) (d : Option String)
        (q : Option Int) (cv : Option Rat) (res : ParsedHand),
      parse_hand h e d q cv = some res →
        res.info.big_blind = safe_parse_int h.big_blind_amount 0 ∧
        res.info.small_blind = safe_parse_int h.small_blind_amount 0 ∧
        res.info.ante = safe_parse_int h.ante_amount 0 ∧
        res.score_rows =
          score_rows_of h.stub (handChipValue h cv) (handPartialScores h e) ∧
        ∀ p ∈ res.players,
          p.stack0 = ((posLookup h.positions p.position).map
              (fun i => safe_parse_int (some i.stack) 0)).getD 0 ∧
          ∃ pi ∈ h.positions, p.position = pi.1 ∧ p.money_won = pi.2.money_won.getD 0) := by
  refine ⟨rfl, fun a c => rfl,
    fun h e d q cv1 cv2 => parse_hand_chip_invariant h e d q cv1 cv2, ?_⟩
  intro h e d q cv res hp
  simp only [parse_hand] at hp
  split at hp
  · exact Option.noConfusion hp
  · rename_i parts hparts
    split at hp
    · exact Option.noConfusion hp
    · rename_i stF srows arows hrun
      simp only [Option.some.injEq] at hp
      subst hp
      refine ⟨rfl, rfl, rfl, rfl, ?_⟩
      intro p hpmem
      obtain ⟨pi, hpi, hfp⟩ := List.mem_map.mp hpmem
      subst hfp
      constructor
      · show handStack0 h (handChipValue h cv) pi.1 =
          ((posLookup h.positions pi.1).map
            (fun i => safe_parse_int (some i.stack) 0)).getD 0
        unfold handStack0
        cases posLookup h.positions pi.1 with
        | none => rfl
        | some i => rfl
      · exact ⟨pi, hpi, rfl, rfl⟩

end HeavyAnalysis


namespace Scrape

/-- A JSON scalar as Python sees it, with its truthiness. -/
inductive PyVal where
  | none
  | bool (b : Bool)
  | int (n : Int)
  | str (s : String)
deriving DecidableEq, Repr

/-- Python truthiness of a `PyVal`. -/
def truthy : PyVal → Bool
  | .none => false
  | .bool b => b
  | .int n => n ≠ 0
  | .str s => s ≠ ""

/-- The fields of an upstream hand object that `validate_hand` and the
ingestion loop of `scrape.py` read. -/
structure RawHand where
  stub : Option String
  blinds : Option String
  is_cash : PyVal
  is_mtt : PyVal
deriving DecidableEq, Repr

/-- `validate_hand(hand)` of scrape.py (lines 160-179): requires a truthy
stub, truthy blinds, and `is_cash or is_mtt` truthy; returns
`(is_valid, error_message)`. -/
def validate_hand (h : RawHand) : Bool × Option String :=
  if h.stub.getD "" = "" then (false, some "Saknar hand ID (stub)")
  else if h.blinds.getD "" = "" then (false, some "Saknar blinds-information")
  else if truthy h.is_cash = false ∧ truthy h.is_mtt = false then
    (false, some "Varken cash game eller MTT")
  else (true, Option.none)

/-- `INSERT OR IGNORE` over the `hands` table keyed on id: rows are taken in
order and an id already present is skipped. -/
def insertOrIgnore : List String → List String → List String
  | db, [] => db
  | db, i :: rest => insertOrIgnore (if i ∈ db then db else db ++ [i]) rest

/-- `check_duplicate(con, hand_id)` (lines 181-185): does the committed
`hands` table already hold the id? -/
def check_duplicate (db : List String) (hand_id : String) : Bool := hand_id ∈ db

/-- The observable state of the ingestion loop of `main` (lines 443-509):
the committed `hands` ids, the in-memory `rows` buffer (ids only), and the
three counters. -/
structure IngestState where
  db : List String
  buffer : List String
  duplicates : Nat
  invalid : Nat
  total_seen : Nat
deriving DecidableEq, Repr

/-- `store.insert_batch(rows)` followed by the bookkeeping of the main loop:
commit the buffer with insert-or-ignore and add its length to
`total_seen`. -/
def flushBatch (st : IngestState) : IngestState :=
  { st with db := insertOrIgnore st.db st.buffer,
            total_seen := st.total_seen + st.buffer.length,
            buffer := [] }

/-- One iteration of `for seq, hand in api.iter_hands(date)`: invalid hands
bump `invalid_hands`, ids already committed bump `duplicates`, everything
else is buffered and the buffer is flushed once it reaches `batch_size`.
(The processing-script invocation after a flush is outside this model.) -/
def ingestStep (batchSize : Nat) (st : IngestState) (h : RawHand) : IngestState :=
  if (validate_hand h).1 = false then { st with invalid := st.invalid + 1 }
  else if check_duplicate st.db (h.stub.getD "") then
    { st with duplicates := st.duplicates + 1 }
  else
    let st1 := { st with buffer := st.buffer ++ [h.stub.getD ""] }
    if batchSize ≤ st1.buffer.length then flushBatch st1 else st1

/-- The whole ingestion loop over one date's hands, starting from an empty
store, with the final partial batch flushed at the end. -/
def runIngest (batchSize : Nat) (hands : List RawHand) : IngestState :=
  let st := hands.foldl (ingestStep batchSize) ⟨[], [], 0, 0, 0⟩
  if st.buffer ≠ [] then flushBatch st else st

/-- The S2 hand `{id:"X", blinds:"100:50", is_cash:0, is_mtt:0}`. -/
def handS2 : RawHand :=
  { stub := some "X", blinds := some "100:50", is_cash := .int 0, is_mtt := .int 0 }

/-- The three S1 hands, all valid: ids A, B, A. -/
def handA : RawHand :=
  { stub := some "A", blinds := some "100:50", is_cash := .int 1, is_mtt := .int 0 }

def handB : RawHand :=
  { stub := some "B", blinds := some "100:50", is_cash := .int 1, is_mtt := .int 0 }

/-- C3 counterexample: a hand with BOTH flags set passes `validate_hand`,
refuting "passes exactly when ... exactly one of is_cash / is_mtt set" and
"a hand with both flags set is also rejected". -/
theorem C3_counterexample :
    (validate_hand { stub := some "X", blinds := some "100:50",
                     is_cash := .int 1, is_mtt := .int 1 }).1 = true :=
  rfl

/-- C3 (amended): validation passes exactly when the hand has a truthy id,
truthy blinds and AT LEAST ONE of is_cash/is_mtt truthy; the both-unset S2
hand is rejected, not inserted, and bumps the invalid counter by 1. -/
theorem C3_validation :
    (∀ h : RawHand,
      (validate_hand h).1 = true ↔
        (h.stub.getD "" ≠ "" ∧ h.blinds.getD "" ≠ "" ∧
          (truthy h.is_cash = true ∨ truthy h.is_mtt = true))) ∧
    (validate_hand handS2).1 = false ∧
    (runIngest 500 [handS2]).db = [] ∧
    (runIngest 500 [handS2]).invalid = 1 := by
  refine ⟨?_, rfl, rfl, rfl⟩
  intro h
  unfold validate_hand
  by_cases h1 : h.stub.getD "" = ""
  · simp [h1]
  · by_cases h2 : h.blinds.getD "" = ""
    · simp [h1, h2]
    · by_cases h3 : truthy h.is_cash = false ∧ truthy h.is_mtt = false
      · simp only [if_neg h1, if_neg h2, if_pos h3]
        simp [h1, h2, h3.1, h3.2]
      · simp only [if_neg h1, if_neg h2, if_neg h3]
        have h4 : truthy h.is_cash = true ∨ truthy h.is_mtt = true := by
          rcases Bool.eq_false_or_eq_true (truthy h.is_cash) with hc | hc
          · exact Or.inl hc
          · rcases Bool.eq_false_or_eq_true (truthy h.is_mtt) with hm | hm
            · exact Or.inr hm
            · exact absurd ⟨hc, hm⟩ h3
        simp [h1, h2, h4]

/-- C4 counterexample: ingesting `[A, B, A]` (all valid, one batch) leaves
two rows, but the run counts 0 duplicates and reports 3 hands seen — the
in-buffer duplicate is silently eliminated by INSERT OR IGNORE, never
counted or logged. -/
theorem C4_counterexample :
    (runIngest 500 [handA, handB, handA]).db = ["A", "B"] ∧
    (runIngest 500 [handA, handB, handA]).duplicates = 0 ∧
    (runIngest 500 [handA, handB, handA]).total_seen = 3 :=
  ⟨rfl, rfl, rfl⟩

theorem insertOrIgnore_nodup :
    ∀ (rows : List String) (db : List String), db.Nodup → (insertOrIgnore db rows).Nodup := by
  intro rows
  induction rows with
  | nil => intro db h; exact h
  | cons i rest ih =>
      intro db h
      simp only [insertOrIgnore]
      by_cases hm : i ∈ db
      · simp only [if_pos hm]
        exact ih db h
      · simp only [if_neg hm]
        refine ih (db ++ [i]) ?_
        simp [List.nodup_append, h, hm]

theorem flushBatch_nodup (st : IngestState) (h : st.db.Nodup) : (flushBatch st).db.Nodup :=
  insertOrIgnore_nodup st.buffer st.db h

theorem ingestStep_nodup (batchSize : Nat) (st : IngestState) (h : RawHand)
    (hn : st.db.Nodup) : (ingestStep batchSize st h).db.Nodup := by
  simp only [ingestStep]
  split
  · exact hn
  · split
    · exact hn
    · split
      · exact flushBatch_nodup _ hn
      · exact hn

/-- C4 (amended): the batch `[A, B, A]` stores exactly the two rows A and B
(an id committed to PrimaryStore is never stored twice: the table stays
duplicate-free for every input), but the run reports 3 hands imported and
0 duplicates — the duplicate check consults only the committed table, so a
repeat inside the same uncommitted batch is not counted; it is dropped by
INSERT OR IGNORE at commit. -/
theorem C4_dedup :
    (runIngest 500 [handA, handB, handA]).db = ["A", "B"] ∧
    (runIngest 500 [handA, handB, handA]).duplicates = 0 ∧
    (runIngest 500 [handA, handB, handA]).total_seen = 3 ∧
    (∀ (batchSize : Nat) (hands : List RawHand), (runIngest batchSize hands).db.Nodup) := by
  refine ⟨rfl, rfl, rfl, ?_⟩
  intro batchSize hands
  simp only [runIngest]
  have hfold : ∀ (l : List RawHand) (st : IngestState), st.db.Nodup →
      (l.foldl (ingestStep batchSize) st).db.Nodup := by
    intro l
    induction l with
    | nil => intro st h; exact h
    | cons a l ih =>
        intro st h
        exact ih (ingestStep batchSize st a) (ingestStep_nodup batchSize st a h)
  have h := hfold hands ⟨[], [], 0, 0, 0⟩ List.nodup_nil
  split
  · exact flushBatch_nodup _ h
  · exact h

end Scrape


namespace HeavyAnalysis

/-- One row of the source `hands` table as the Stage 1 import reads it
(id, hand_date, seq, chip value, decoded JSON); `extra_scores` is
`ps_cache.get(hid)`, the preflop-score cache entry passed to
`parse_hand`. -/
structure SrcRow where
  id : String
  hand_date : Option String
  seq : Option Int
  chip_value : Option Rat
  hand : Hand
  extra_scores : Option (List (String × ScoreVal))
deriving DecidableEq, Repr

/-- The import loop of `main` (1_build_heavy_analysis.py lines 477-509): a
row whose id is in `done` is skipped; otherwise `parse_hand` runs and the
hand's rows are inserted (INSERT OR IGNORE keyed on hand id, modelled by
the accumulator membership test). There is no try/except around
`parse_hand`: an exception propagates and ends the loop, so the result is
the inserts so far plus the id of the failing hand. -/
def stage1Loop (done : List String) :
    List (String × ParsedHand) → List SrcRow →
      List (String × ParsedHand) × Option String
  | acc, [] => (acc, none)
  | acc, row :: rest =>
      if row.id ∈ done then stage1Loop done acc rest
      else
        match parse_hand row.hand row.extra_scores row.hand_date row.seq row.chip_value with
        | none => (acc, some row.id)
        | some parsed =>
            stage1Loop done
              (if row.id ∈ acc.map Prod.fst then acc else acc ++ [(row.id, parsed)]) rest

/-- The import of one batch: the hands inserted this run and, when a parse
raised, the failing hand's id. -/
def stage1_import (done : List String) (rows : List SrcRow) :
    List (String × ParsedHand) × Option String :=
  stage1Loop done [] rows

/-- A source row whose situation string starts with `b` — the tokenizer
raises `ValueError` on it. -/
def srcBad : SrcRow :=
  { id := "h-bad", hand_date := none, seq := none, chip_value := none,
    hand := { exHandFF with stub := "h-bad", situation_string := "bx".toList },
    extra_scores := none }

/-- A perfectly parseable source row. -/
def srcGood : SrcRow :=
  { id := "HFF", hand_date := some "2025-01-10", seq := some 7, chip_value := none,
    hand := exHandFF, extra_scores := none }

/-- C2 counterexample: a batch whose first hand has a situation string the
tokenizer rejects aborts the whole import — the later, parseable hand is
NOT imported, refuting "skips that hand only and continues processing the
remaining hands of the batch". (No rows are inserted for the bad hand.) -/
theorem C2_counterexample :
    stage1_import [] [srcBad, srcGood] = ([], some "h-bad") ∧
    (parse_hand srcGood.hand srcGood.extra_scores srcGood.hand_date srcGood.seq
      srcGood.chip_value).isSome = true :=
  ⟨rfl, rfl⟩

/-- C2 (amended): the Stage 1 import has no per-hand error handling. The
first hand whose situation string the tokenizer rejects (or whose parse
otherwise raises) aborts the run: hands before it are imported as usual,
no row of the failing hand is inserted, and the hands after it are never
processed. (Raise amounts never fail to parse: `safe_parse_int` falls back
to a default.) -/
theorem C2_abort_on_bad_hand (done : List String) (pre : List SrcRow) (bad : SrcRow)
    (post : List SrcRow)
    (hpre : ∀ r ∈ pre, r.id ∈ done ∨
      (parse_hand r.hand r.extra_scores r.hand_date r.seq r.chip_value).isSome = true)
    (hbadid : bad.id ∉ done)
    (hbad : parse_hand bad.hand bad.extra_scores bad.hand_date bad.seq
      bad.chip_value = none) :
    (stage1_import done (pre ++ bad :: post)).2 = some bad.id ∧
    ∀ x ∈ (stage1_import done (pre ++ bad :: post)).1, x.1 ∈ pre.map SrcRow.id := by
  have key : ∀ (pre : List SrcRow) (acc : List (String × ParsedHand)),
      (∀ r ∈ pre, r.id ∈ done ∨
        (parse_hand r.hand r.extra_scores r.hand_date r.seq r.chip_value).isSome = true) →
      (stage1Loop done acc (pre ++ bad :: post)).2 = some bad.id ∧
      ∀ x ∈ (stage1Loop done acc (pre ++ bad :: post)).1,
        x ∈ acc ∨ x.1 ∈ pre.map SrcRow.id := by
    intro pre
    induction pre with
    | nil =>
        intro acc _
        have hred : stage1Loop done acc (([] : List SrcRow) ++ bad :: post)
            = (acc, some bad.id) := by
          simp only [List.nil_append, stage1Loop, if_neg hbadid, hbad]
        rw [hred]
        exact ⟨rfl, fun x hx => Or.inl hx⟩
    | cons r pre ih =>
        intro acc hpre
        have hr := hpre r (by simp)
        simp only [List.cons_append, stage1Loop]
        by_cases hdone : r.id ∈ done
        · rw [if_pos hdone]
          have hrec := ih acc (fun r2 hr2 => hpre r2 (by simp [hr2]))
          refine ⟨hrec.1, ?_⟩
          intro x hx
          rcases hrec.2 x hx with hx2 | hx2
          · exact Or.inl hx2
          · exact Or.inr (by simp [hx2])
        · rw [if_neg hdone]
          rcases hr with hr | hr
          · exact absurd hr hdone
          · rw [Option.isSome_iff_exists] at hr
            obtain ⟨parsed, hparsed⟩ := hr
            simp only [hparsed]
            have hrec := ih (if r.id ∈ acc.map Prod.fst then acc else acc ++ [(r.id, parsed)])
              (fun r2 hr2 => hpre r2 (by simp [hr2]))
            refine ⟨hrec.1, ?_⟩
            intro x hx
            rcases hrec.2 x hx with hx2 | hx2
            · by_cases hmem : r.id ∈ acc.map Prod.fst
              · rw [if_pos hmem] at hx2
                exact Or.inl hx2
              · rw [if_neg hmem] at hx2
                rcases List.mem_append.mp hx2 with hx3 | hx3
                · exact Or.inl hx3
                · have hx4 := List.mem_singleton.mp hx3
                  subst hx4
                  exact Or.inr (by simp)
            · exact Or.inr (by simp [hx2])
  have hmain := key pre [] hpre
  refine ⟨hmain.1, ?_⟩
  intro x hx
  rcases hmain.2 x hx with hx2 | hx2
  · simp at hx2
  · exact hx2

/-- C2 witness: the amended theorem at a concrete batch `[good, bad]`. -/
theorem C2_abort_on_bad_hand_witness :
    (stage1_import [] ([srcGood] ++ srcBad :: [])).2 = some srcBad.id ∧
    ∀ x ∈ (stage1_import [] ([srcGood] ++ srcBad :: [])).1,
      x.1 ∈ [srcGood].map SrcRow.id :=
  C2_abort_on_bad_hand [] [srcGood] srcBad []
    (by
      intro r hr
      rw [List.mem_singleton] at hr
      subst hr
      exact Or.inr rfl)
    (by simp)
    rfl

end HeavyAnalysis


namespace PreflopScores

/-- One row of the prebuilt `ranges_flat` reference table. -/
structure RangeRow where
  position : String
  action_sequence : String
  combo : String
  action : String
  frequency : Rat
deriving DecidableEq, Repr

/-- `pos_variants(pos)` of 2_preflop_scores.py: `sorted(POS_SYNONYM.get(
pos.upper(), {pos.upper()}))` with `POS_SYNONYM = {"UTG": {"UTG","LJ"},
"LJ": {"UTG","LJ"}}`. -/
def pos_variants (pos : String) : List String :=
  let u := String.mk (pos.toList.map Char.toUpper)
  if u = "UTG" ∨ u = "LJ" then ["LJ", "UTG"] else [u]

/-- `compress_folds(tokens)`: collapse a trailing run of two or more `f`
into one (`while tokens[-1] == tokens[-2] == 'f': tokens.pop()`). -/
def compress_folds (tokens : List String) : List String :=
  let k := (tokens.reverse.takeWhile (fun t => t = "f")).length
  if 2 ≤ k then tokens.take (tokens.length - k) ++ ["f"] else tokens

/-- `to_seq(tokens)`: upper-case initials joined by dashes. -/
def to_seq (tokens : List String) : String :=
  String.intercalate "-" (tokens.map (fun t =>
    if t.toList.take 1 = ['r'] then "R"
    else if t.toList.take 1 = ['f'] then "F"
    else if t.toList.take 1 = ['c'] then "C"
    else "X"))

/-- `like_pattern(seq)`: `%` for the empty sequence, otherwise the
sequence with `%` appended (unless already there), upper-cased. -/
def like_pattern (seq : String) : String :=
  if seq = "" then "%"
  else String.mk ((if seq.toList.getLast? = some '%' then seq.toList
                   else seq.toList ++ ['%']).map Char.toUpper)

/-- `action_sequence LIKE pat` for the patterns `like_pattern` builds: a
wildcard-free body with one trailing `%`, i.e. a case-insensitive prefix
test against the body (SQLite LIKE is ASCII case-insensitive). -/
def likeMatches (pat : String) (s : String) : Bool :=
  List.isPrefixOf ((pat.toList.filter (fun c => c ≠ '%')).map Char.toUpper)
    (s.toList.map Char.toUpper)

/-- The rows satisfying the WHERE clause shared by both queries of
`fetch_freq_and_max`: `position IN pos_variants`, the LIKE on
`action_sequence`, and `combo = ?`. -/
def nodeRows (db : List RangeRow) (combo pos pat : String) : List RangeRow :=
  db.filter (fun r =>
    decide (r.position ∈ pos_variants pos) && likeMatches pat r.action_sequence &&
      decide (r.combo = combo))

/-- `CAST(SUBSTR(action, 2) AS REAL)` on `rNNN` actions: the value of the
digits after the first character (a non-numeric prefix casts to 0). -/
def raiseAmt (a : String) : Nat :=
  HeavyAnalysis.digitsVal ((a.toList.drop 1).takeWhile Char.isDigit)

/-- `ORDER BY CAST(SUBSTR(action,2) AS REAL) LIMIT 1`: the row with the
smallest raise amount (ties are unspecified in SQL; the model keeps the
earliest). -/
def minByRaiseAmt : List RangeRow → Option RangeRow
  | [] => Option.none
  | r :: rest =>
      match minByRaiseAmt rest with
      | Option.none => some r
      | some m => if raiseAmt r.action ≤ raiseAmt m.action then some r else some m

/-- `MAX(frequency)` over a list of rows (`NULL` on the empty set). -/
def maxFreq : List RangeRow → Option Rat
  | [] => Option.none
  | r :: rest =>
      match maxFreq rest with
      | Option.none => some r.frequency
      | some m => some (max r.frequency m)

/-- `fetch_freq_and_max(conn, combo, pos, pat, act_token)` (lines 92-117):
one query returns the played action's frequency together with the node
max. When no row matches the played action, `fetchone()` returns `None`
and BOTH come back `None` — even when the node has rows for other
actions. -/
def fetch_freq_and_max (db : List RangeRow) (combo pos pat act_token : String) :
    Option Rat × Option Rat :=
  let node := nodeRows db combo pos pat
  if act_token.toList.take 1 = ['r'] then
    match minByRaiseAmt (node.filter (fun r =>
        (r.action.toList.map Char.toLower).take 1 = ['r'])) with
    | Option.none => (Option.none, Option.none)
    | some row => (some row.frequency, maxFreq node)
  else
    match (node.filter (fun r => r.action = act_token)).head? with
    | Option.none => (Option.none, Option.none)
    | some row => (some row.frequency, maxFreq node)

/-- `math.isclose(freq, maxf, abs_tol=1e-9)` — `rel_tol` keeps its default
1e-9, so the test is `|a-b| ≤ max(1e-9 * max(|a|,|b|), 1e-9)`. -/
def isclose (a b : Rat) : Bool :=
  decide (|a - b| ≤ max (1 / 1000000000 * max |a| |b|) (1 / 1000000000))

/-- The `best` expression of `main` (lines 178-183): `y` when freq and max
exist and are close, `n` when the max exists, else `NULL`. -/
def assign_best (freq maxf : Option Rat) : Option String :=
  match freq, maxf with
  | some f, some m => if isclose f m then some "y" else some "n"
  | Option.none, some _ => some "n"
  | _, Option.none => Option.none

/-- The rows the played action can name: raise tokens match any stored
raise (`action LIKE 'r%'`), other tokens match exactly (`action = ?`). -/
def playedRows (db : List RangeRow) (combo pos pat act_token : String) : List RangeRow :=
  let node := nodeRows db combo pos pat
  if act_token.toList.take 1 = ['r'] then
    node.filter (fun r => (r.action.toList.map Char.toLower).take 1 = ['r'])
  else node.filter (fun r => r.action = act_token)

theorem minByRaiseAmt_eq_none : ∀ l : List RangeRow, minByRaiseAmt l = Option.none ↔ l = [] := by
  intro l
  cases l with
  | nil => simp [minByRaiseAmt]
  | cons r rest =>
      simp only [minByRaiseAmt]
      cases minByRaiseAmt rest with
      | none => simp
      | some m =>
          by_cases hle : raiseAmt r.action ≤ raiseAmt m.action <;> simp [hle]

theorem minByRaiseAmt_mem : ∀ (l : List RangeRow) (r : RangeRow),
    minByRaiseAmt l = some r → r ∈ l := by
  intro l
  induction l with
  | nil => intro r h; exact Option.noConfusion h
  | cons a rest ih =>
      intro r
      simp only [minByRaiseAmt]
      cases hrec : minByRaiseAmt rest with
      | none =>
          intro h
          simp only [Option.some.injEq] at h
          subst h
          exact List.mem_cons_self a rest
      | some m =>
          show (if raiseAmt a.action ≤ raiseAmt m.action then some a else some m) = some r →
            r ∈ a :: rest
          intro h
          split at h
          · have ha := Option.some.inj h
            subst ha
            exact List.mem_cons_self a rest
          · have ha := Option.some.inj h
            subst ha
            exact List.mem_cons_of_mem a (ih m hrec)

theorem maxFreq_eq_none : ∀ l : List RangeRow, maxFreq l = Option.none ↔ l = [] := by
  intro l
  cases l with
  | nil => simp [maxFreq]
  | cons r rest =>
      simp only [maxFreq]
      cases maxFreq rest with
      | none => simp
      | some m => simp

theorem head?_mem {A : Type} (l : List A) (a : A) (h : l.head? = some a) : a ∈ l := by
  cases l with
  | nil => exact Option.noConfusion h
  | cons b t =>
      rw [List.head?_cons] at h
      have := Option.some.inj h
      subst this
      exact List.mem_cons_self b t

theorem head?_eq_none {A : Type} (l : List A) (h : l.head? = Option.none) : l = [] := by
  cases l with
  | nil => rfl
  | cons a t =>
      rw [List.head?_cons] at h
      exact Option.noConfusion h

/-- Every played-action row lies at the node. -/
theorem playedRows_subset (db : List RangeRow) (combo pos pat act_token : String) :
    ∀ r ∈ playedRows db combo pos pat act_token, r ∈ nodeRows db combo pos pat := by
  intro r hr
  simp only [playedRows] at hr
  split at hr
  · exact List.mem_of_mem_filter hr
  · exact List.mem_of_mem_filter hr

/-- The single-row reference used by the C5 counterexample: the node
(combo AsKs, BTN, any sequence) has one raise entry and nothing else. -/
def exRangeRow : RangeRow :=
  { position := "BTN", action_sequence := "", combo := "AsKs", action := "r200",
    frequency := 4 / 5 }

/-- C5 counterexample: the node exists in the reference (it has a raise
row), the played action is a call with no row, and the query returns
`(None, None)` — freq is null where the claim says 0, and best is null
where the claim says 'n'. -/
theorem C5_counterexample :
    nodeRows [exRangeRow] "AsKs" "BTN" "%" = [exRangeRow] ∧
    fetch_freq_and_max [exRangeRow] "AsKs" "BTN" "%" "c" = (Option.none, Option.none) ∧
    assign_best Option.none Option.none = Option.none :=
  ⟨rfl, rfl, rfl⟩

/-- C5 (amended): `freq` and the node max are null together, exactly when
the reference holds no row for the played action at the node — even when
the node exists with other actions. Otherwise `freq` is the stored
frequency of a played-action row (for raises, the smallest stored raise),
the max ranges over the whole node, and `best` is `y`/`n` by the 1e-9
closeness test; `best` is null exactly when the lookup found no row. -/
theorem C5_freq_and_best (db : List RangeRow) (combo pos pat act_token : String) :
    (fetch_freq_and_max db combo pos pat act_token = (Option.none, Option.none) ↔
      playedRows db combo pos pat act_token = []) ∧
    ((fetch_freq_and_max db combo pos pat act_token).1.isNone =
      (fetch_freq_and_max db combo pos pat act_token).2.isNone) ∧
    (∀ f m, fetch_freq_and_max db combo pos pat act_token = (some f, some m) →
      (∃ r ∈ playedRows db combo pos pat act_token, r.frequency = f) ∧
      maxFreq (nodeRows db combo pos pat) = some m ∧
      assign_best (some f) (some m) = (if isclose f m then some "y" else some "n")) ∧
    (assign_best (fetch_freq_and_max db combo pos pat act_token).1
        (fetch_freq_and_max db combo pos pat act_token).2 = Option.none ↔
      playedRows db combo pos pat act_token = []) := by
  have main :
      (playedRows db combo pos pat act_token = [] ∧
        fetch_freq_and_max db combo pos pat act_token = (Option.none, Option.none)) ∨
      (∃ row ∈ playedRows db combo pos pat act_token,
        fetch_freq_and_max db combo pos pat act_token
          = (some row.frequency, maxFreq (nodeRows db combo pos pat))) := by
    by_cases hact : act_token.toList.take 1 = ['r']
    · cases hsel : minByRaiseAmt ((nodeRows db combo pos pat).filter (fun r =>
          (r.action.toList.map Char.toLower).take 1 = ['r'])) with
      | none =>
          left
          refine ⟨?_, ?_⟩
          · simp only [playedRows]
            rw [if_pos hact]
            exact (minByRaiseAmt_eq_none _).mp hsel
          · simp only [fetch_freq_and_max]
            rw [if_pos hact, hsel]
      | some row =>
          right
          refine ⟨row, ?_, ?_⟩
          · simp only [playedRows]
            rw [if_pos hact]
            exact minByRaiseAmt_mem _ _ hsel
          · simp only [fetch_freq_and_max]
            rw [if_pos hact, hsel]
    · cases hsel : ((nodeRows db combo pos pat).filter
          (fun r => r.action = act_token)).head? with
      | none =>
          left
          refine ⟨?_, ?_⟩
          · simp only [playedRows]
            rw [if_neg hact]
            exact head?_eq_none _ hsel
          · simp only [fetch_freq_and_max]
            rw [if_neg hact, hsel]
      | some row =>
          right
          refine ⟨row, ?_, ?_⟩
          · simp only [playedRows]
            rw [if_neg hact]
            exact head?_mem _ _ hsel
          · simp only [fetch_freq_and_max]
            rw [if_neg hact, hsel]
  rcases main with ⟨hempty, hfetch⟩ | ⟨row, hrowmem, hfetch⟩
  · refine ⟨?_, ?_, ?_, ?_⟩
    · rw [hfetch]
      simp [hempty]
    · simp [hfetch]
    · intro f m hfm
      rw [hfetch] at hfm
      simp at hfm
    · rw [hfetch]
      simp [assign_best, hempty]
  · have hne : playedRows db combo pos pat act_token ≠ [] := by
      intro hp
      rw [hp] at hrowmem
      exact absurd hrowmem (List.not_mem_nil row)
    have hnode_ne : nodeRows db combo pos pat ≠ [] := by
      intro hn
      have hmem := playedRows_subset db combo pos pat act_token row hrowmem
      rw [hn] at hmem
      exact absurd hmem (List.not_mem_nil row)
    have hmax : ∃ m0, maxFreq (nodeRows db combo pos pat) = some m0 := by
      cases hm : maxFreq (nodeRows db combo pos pat) with
      | none => exact absurd ((maxFreq_eq_none _).mp hm) hnode_ne
      | some m0 => exact ⟨m0, rfl⟩
    obtain ⟨m0, hm0⟩ := hmax
    refine ⟨?_, ?_, ?_, ?_⟩
    · rw [hfetch, hm0]
      simp only [Prod.mk.injEq]
      constructor
      · rintro ⟨h1, _⟩
        exact Option.noConfusion h1
      · intro hp
        exact absurd hp hne
    · rw [hfetch, hm0]
      rfl
    · intro f m hfm
      rw [hfetch, hm0] at hfm
      simp only [Prod.mk.injEq] at hfm
      obtain ⟨h1, h2⟩ := hfm
      have hf := Option.some.inj h1
      have hm := Option.some.inj h2
      refine ⟨⟨row, hrowmem, hf⟩, ?_, rfl⟩
      rw [hm0, hm]
    · rw [hfetch, hm0]
      simp only [assign_best]
      constructor
      · intro hcon
        split at hcon
        · exact Option.noConfusion hcon
        · exact Option.noConfusion hcon
      · intro hp
        exact absurd hp hne

end PreflopScores


namespace JScore

/-- `RANKS = "23456789TJQKA"` of 5_add_j_score.py. -/
def RANKS : List Char := "23456789TJQKA".toList

/-- `RANKS.index(c)`: `none` models the `ValueError` on an absent rank. -/
def idxOf : List Char → Char → Option Nat
  | [], _ => Option.none
  | c :: cs, d => if c = d then some 0 else (idxOf cs d).map (fun n => n + 1)

def isRankChar (c : Char) : Bool := decide (c ∈ "23456789TJQKA".toList)

def isSuitChar (c : Char) : Bool := decide (c ∈ "SHDCshdc".toList)

/-- `_CARD_RE.findall(s)`: a left-to-right non-overlapping scan for a rank
character followed by a suit character. -/
def findCards : List Char → List (Char × Char)
  | r :: s :: rest =>
      if isRankChar r ∧ isSuitChar s then (r, s) :: findCards rest
      else findCards (s :: rest)
  | _ => []

/-- `clean_cards(s)` (lines 28-33): the first two card matches joined, or
`""` when fewer than two cards are found. -/
def clean_cards (s : Option String) : String :=
  let cards := findCards (s.getD "").toList
  if cards.length < 2 then ""
  else String.mk ((cards.take 2).foldr (fun rc acc => rc.1 :: rc.2 :: acc) [])

/-- `canon(hole)` (lines 35-51): pair / suited / offsuit key, `""` for
inputs that are not 4 characters; `none` models the `ValueError` Python
raises for a rank outside RANKS. -/
def canon (hole : String) : Option String :=
  match hole.toList with
  | [r1, s1, r2, s2] =>
      match idxOf RANKS r1, idxOf RANKS r2 with
      | some i1, some i2 =>
          match (if i2 > i1 then (r2, s2, r1, s1) else (r1, s1, r2, s2)) with
          | (a, sa, b, sb) =>
              if a = b then some (String.mk [a, b])
              else some (String.mk [a, b, if sa.toLower = sb.toLower then 's' else 'o'])
      | _, _ => Option.none
  | _ => some ""

/-- `CHEN_BASE`: `dict(zip("AKQJT98765432", [10, 8, 7, 6, 5, 4.5, 4, 3.5,
3, 2.5, 2, 1.5, 1]))` (chen_pct only consults it for ranks in RANKS). -/
def CHEN_BASE (c : Char) : Rat :=
  if c = 'A' then 10 else if c = 'K' then 8 else if c = 'Q' then 7
  else if c = 'J' then 6 else if c = 'T' then 5 else if c = '9' then 9 / 2
  else if c = '8' then 4 else if c = '7' then 7 / 2 else if c = '6' then 3
  else if c = '5' then 5 / 2 else if c = '4' then 2 else if c = '3' then 3 / 2
  else 1

/-- `CHEN_GAP = [0, 0, 1, 2, 4, 5]`. -/
def CHEN_GAP : List Rat := [0, 0, 1, 2, 4, 5]

/-- Python list indexing, negative indices from the end; `none` is an
`IndexError`. -/
def pyIndex (l : List Rat) (i : Int) : Option Rat :=
  if 0 ≤ i then l.get? i.toNat
  else if 0 ≤ (l.length : Int) + i then l.get? ((l.length : Int) + i).toNat
  else Option.none

/-- `chen_pct(hole)` (lines 80-95). Note the pair case: `gap = -1`, so
`CHEN_GAP[min(gap, 5)]` is Python's `CHEN_GAP[-1] = 5` and every pair
loses 5 points (AA scores 15/20 = 0.75). A string of length ≠ 4 scores
0.25; `none` models the exception on a rank outside RANKS. -/
def chen_pct (hole : String) : Option Rat :=
  match hole.toList with
  | [r1, s1, r2, s2] =>
      match idxOf RANKS r1, idxOf RANKS r2 with
      | some i1, some i2 =>
          match (if i2 > i1 then (r2, s2, r1, s1, i2, i1)
                 else (r1, s1, r2, s2, i1, i2)) with
          | (a, sa, b, sb, ia, ib) =>
              let pts0 := CHEN_BASE a
              let pts1 := if a = b then max (pts0 * 2) 5 else pts0
              let pts2 := if sa.toLower = sb.toLower then pts1 + 2 else pts1
              let gap : Int := (ia : Int) - (ib : Int) - 1
              match pyIndex CHEN_GAP (min gap 5) with
              | Option.none => Option.none
              | some pen =>
                  let pts3 := pts2 - pen
                  let pts4 := if gap ≤ 1 ∧ ia < 10 then pts3 + 1 else pts3
                  some (max 0 (min pts4 20) / 20)
      | _, _ => Option.none
  | _ => some (1 / 4)

/-- `preflop_pct(hole)` (lines 97-101): the range-map entry for the
canonical key when present, else the Chen formula. `rangeMap` stands for
`_RANGE_MAP` as loaded from range.txt (empty when the file is absent). -/
def preflop_pct (rangeMap : List (String × Rat)) (hole : String) : Option Rat :=
  match canon hole with
  | Option.none => Option.none
  | some key =>
      if key ≠ "" ∧ (rangeMap.find? (fun kv => kv.1 = key)).isSome then
        (rangeMap.find? (fun kv => kv.1 = key)).map (fun kv => kv.2)
      else chen_pct hole

/-- `treys_pct(hole, board)` (lines 104-114). The treys evaluator is an
external C library: `evalPct` stands for
`get_five_card_rank_percentage(evaluate(h, b))` and `treysAvailable` for
`_treys` being importable; with no evaluator, or fewer than five known
cards, the function returns 0.5 (as does the `except` arm of the external
call, not modelled). -/
def treys_pct (treysAvailable : Bool) (evalPct : String → String → Rat)
    (hole board : String) : Rat :=
  if treysAvailable = false ∨ hole.length / 2 + board.length / 2 < 5 then 1 / 2
  else 1 - evalPct hole board

/-- The base strength `score_row` computes before the risk adjustment
(lines 132-144): preflop the range/Chen percentage with no adjustment,
postflop the treys percentage of the cleaned cards (the multiplication by
the transcendental risk factor and the rounding follow afterwards). -/
def score_row_base (rangeMap : List (String × Rat)) (treysAvailable : Bool)
    (evalPct : String → String → Rat) (street : Option String)
    (holecards board_cards : Option String) : Option Rat :=
  let hole := clean_cards holecards
  let board := clean_cards board_cards
  if HeavyAnalysis.lowerStr (street.getD "") = "preflop" then preflop_pct rangeMap hole
  else some (treys_pct treysAvailable evalPct hole board)

/-- The Chen value of AhAd: a pair does not reach 20/20 because Python
evaluates `CHEN_GAP[min(-1, 5)] = CHEN_GAP[-1] = 5`. -/
theorem chen_AhAd : chen_pct "AhAd" = some (3 / 4) := by
  with_unfolding_all rfl

/-- C7 counterexample: a postflop row with holecards AhAd and no board,
scored with no five-card evaluator: the base is 0.5, while
`chen_pct("AhAd") × 0.8 = 0.75 × 0.8 = 0.6` — the Chen × 0.8 fallback the
claim describes does not exist in the code. -/
theorem C7_counterexample :
    score_row_base [] false (fun _ _ => 0) (some "flop") (some "AhAd") (some "") =
      some (1 / 2) ∧
    (chen_pct "AhAd").map (fun c => c * (4 / 5)) = some (3 / 5) ∧
    ¬((1 : Rat) / 2 = 3 / 5) := by
  refine ⟨rfl, ?_, by norm_num⟩
  rw [chen_AhAd]
  norm_num

/-- C7 (amended): with no five-card evaluator the pre-adjustment postflop
base is the constant 0.5 for every row, whatever the cards (and the same
0.5 is returned with an evaluator when fewer than five cards are known) —
there is no Chen fallback postflop. -/
theorem C7_fallback_base (rangeMap : List (String × Rat))
    (evalPct : String → String → Rat) (street : Option String)
    (holecards board_cards : Option String)
    (hpost : HeavyAnalysis.lowerStr (street.getD "") ≠ "preflop") :
    score_row_base rangeMap false evalPct street holecards board_cards = some (1 / 2) := by
  simp only [score_row_base]
  rw [if_neg hpost]
  simp [treys_pct]

/-- C7 witness: the amended theorem at a concrete turn row. -/
theorem C7_fallback_base_witness :
    score_row_base [] false (fun _ _ => 0) (some "turn") (some "KsQs") (some "2c3d4h") =
      some (1 / 2) :=
  C7_fallback_base [] (fun _ _ => 0) (some "turn") (some "KsQs") (some "2c3d4h")
    (by decide)

end JScore

namespace Materialise

/-- The three materialized tables; `none` = the table does not exist,
`some n` = a table built from snapshot `n` of the base data. -/
structure MatState where
  dashboard_summary : Option Nat
  top25_players : Option Nat
  player_summary : Option Nat
deriving DecidableEq, Repr

/-- The statements `rebuild_tables` executes, in order (lines 249-305 of
8_materialise_dashboard.py). -/
inductive MatStep where
  | checkActions
  | dropDashboard
  | createDashboard
  | dropTop25
  | createTop25
  | indexTop25
  | dropPlayerSummary
  | createPlayerSummary
  | indexPlayerSummary
  | finalIndexes
deriving DecidableEq, Repr

/-- The statement order of `rebuild_tables`. -/
def stepList : List MatStep :=
  [MatStep.checkActions, MatStep.dropDashboard, MatStep.createDashboard,
   MatStep.dropTop25, MatStep.createTop25, MatStep.indexTop25,
   MatStep.dropPlayerSummary, MatStep.createPlayerSummary,
   MatStep.indexPlayerSummary, MatStep.finalIndexes]

/-- The effect of one successful statement; `fresh` names the contents
computed from the current base tables. -/
def applyStep (fresh : Nat) (s : MatStep) (st : MatState) : MatState :=
  match s with
  | MatStep.checkActions => st
  | MatStep.dropDashboard => { st with dashboard_summary := Option.none }
  | MatStep.createDashboard => { st with dashboard_summary := some fresh }
  | MatStep.dropTop25 => { st with top25_players := Option.none }
  | MatStep.createTop25 => { st with top25_players := some fresh }
  | MatStep.indexTop25 => st
  | MatStep.dropPlayerSummary => { st with player_summary := Option.none }
  | MatStep.createPlayerSummary => { st with player_summary := some fresh }
  | MatStep.indexPlayerSummary => st
  | MatStep.finalIndexes => st

/-- `rebuild_tables` under Python sqlite3 semantics: the module opens
implicit transactions only for DML, and every statement here is DDL or a
SELECT (`cur.executescript` moreover commits any pending transaction
first), so each executed statement is durable at once and nothing rolls
back when a later statement raises. `fail` marks the statement whose SQL
raises; the run stops there, keeping every effect already applied.
Returns the durable state and whether the build completed. -/
def runSteps (fail : MatStep → Bool) (fresh : Nat) :
    MatState → List MatStep → MatState × Bool
  | st, [] => (st, true)
  | st, s :: rest =>
      if fail s then (st, false)
      else runSteps fail fresh (applyStep fresh s st) rest

/-- The whole `rebuild_tables(con)` call. -/
def rebuild_tables (fail : MatStep → Bool) (fresh : Nat) (st : MatState) :
    MatState × Bool :=
  runSteps fail fresh st stepList

/-- C9 counterexample: starting with all three tables present (snapshot 0),
a failure while building top25_players leaves dashboard_summary already
rebuilt (snapshot 1) and top25_players dropped — the previously
materialized tables are NOT all still in place, so the build is not
atomic and the state changes on error. -/
theorem C9_counterexample :
    rebuild_tables (fun s => s == MatStep.createTop25) 1
        { dashboard_summary := some 0, top25_players := some 0, player_summary := some 0 } =
      ({ dashboard_summary := some 1, top25_players := Option.none,
         player_summary := some 0 }, false) :=
  rfl

/-- C9 (amended): the rebuild is sequential, not transactional: every
statement is durable as soon as it runs, so a failure while building a
table leaves the earlier tables already rebuilt and the failing table
dropped. Only a failure in the initial actions check leaves all tables
unchanged; a clean run rebuilds all three. -/
theorem C9_rebuild_not_atomic (init : MatState) (fresh : Nat) :
    rebuild_tables (fun _ => false) fresh init =
      ({ dashboard_summary := some fresh, top25_players := some fresh,
         player_summary := some fresh }, true) ∧
    rebuild_tables (fun s => s == MatStep.checkActions) fresh init = (init, false) ∧
    rebuild_tables (fun s => s == MatStep.createDashboard) fresh init =
      ({ dashboard_summary := Option.none, top25_players := init.top25_players,
         player_summary := init.player_summary }, false) ∧
    rebuild_tables (fun s => s == MatStep.createTop25) fresh init =
      ({ dashboard_summary := some fresh, top25_players := Option.none,
         player_summary := init.player_summary }, false) ∧
    rebuild_tables (fun s => s == MatStep.createPlayerSummary) fresh init =
      ({ dashboard_summary := some fresh, top25_players := some fresh,
         player_summary := Option.none }, false) :=
  ⟨rfl, rfl, rfl, rfl, rfl⟩

end Materialise
